import Mathlib

/-! # Geomart: motion planner and direction state machine

A shallow embedding of `src/main.cpp`.  Coordinates and step magnitudes are
rationals; the object list is a `List`; the in-place mutations of the frame loop
become functions from the old list to the new one.

The arithmetic of the program is embedded twice.  `calculateMoveDistance`, `draw`,
`updateDestinationStep`, `frame` compute in exact arithmetic, for the properties that
are worded for exact arithmetic.  `calculateMoveDistanceF32`, `drawF32`,
`updateDestinationStepF32`, `frameF32` round the result of every `float` operation
to binary32 with `fl`, as the compiled program does.
-/

namespace Geomart

/-! ## Constants (main.cpp, lines 6-13) -/

/- The four pixel constants are non-negative C++ `int`s; the only arithmetic done
on them is the layout arithmetic of `main`, carried out in `size_t`, so they are
natural numbers here. -/
def WINDOW_WIDTH : Nat := 600
def WINDOW_HEIGHT : Nat := 600
def CIRCLE_RADIUS : Nat := 10
def CIRCLE_MARGIN : Nat := 30

/-- `constexpr float MOVE = CIRCLE_RADIUS * 2;` (pixels). -/
def MOVE : ℚ := ((CIRCLE_RADIUS * 2 : Nat) : ℚ)

/-- `constexpr float MOVE_TIME = 0.25;` (seconds). -/
def MOVE_TIME : ℚ := 1 / 4

/-- `constexpr float MOVE_SPEED = MOVE / MOVE_TIME / 1000.0;` (pixels per millisecond). -/
def MOVE_SPEED : ℚ := MOVE / MOVE_TIME / 1000

/-! ## Data model (main.cpp, lines 15-38) -/

inductive Direction where
  | LEFT
  | RIGHT
  | TOP_RIGHT
  | BOTTOM_LEFT
  deriving DecidableEq, Repr

/-- The two coordinates of an `sf::Vector2f`. -/
structure Vector2f where
  x : ℚ
  y : ℚ
  deriving DecidableEq, Repr

/-- The `Object` struct.  Of the `shape` member only its position is kept
(`shape.getPosition()`); radius and colour play no part in the motion. -/
structure Object where
  position : Vector2f
  destination : Vector2f
  direction : Direction
  deriving DecidableEq, Repr

/-- The constructor `Object::Object(position, destination)`. -/
def Object.ctor (position destination : Vector2f) : Object :=
  { position := position
    destination := destination
    direction := if position.x > destination.x then Direction.LEFT else Direction.RIGHT }

/-! ## Motion planner (main.cpp, lines 47-57) -/

/-- `calculateMoveDistance` in exact arithmetic.  The same function with the result of every
`float` operation rounded is `calculateMoveDistanceF32`. -/
def calculateMoveDistance (current_position destination move_distance : ℚ) : ℚ :=
  let distance := destination - current_position
  if distance < 0 then
    if current_position - move_distance < destination then distance else -move_distance
  else if distance > 0 then
    if current_position + move_distance > destination then distance else move_distance
  else 0

/-- `isOdd(int number)`: `number & 1` converted to `bool`.  The 32-bit
two's-complement bit pattern of `number` is `number % 2^32`. -/
def isOdd (number : Int) : Bool :=
  ((number % 2 ^ 32).toNat &&& 1) != 0

/-! ## Motion update (main.cpp, lines 66-74) -/

/-- The state change of `draw(window, object, pixel_move)`: `shape.move` adds the two
per-axis deltas to the shape's position.  Rendering has no effect on the object.  Exact
arithmetic; the binary32 version is `drawF32`. -/
def draw (object : Object) (pixel_move : ℚ) : Object :=
  { object with
    position :=
      { x := object.position.x +
          calculateMoveDistance object.position.x object.destination.x pixel_move
        y := object.position.y +
          calculateMoveDistance object.position.y object.destination.y pixel_move } }

/-! ## Direction state machine (main.cpp, lines 81-115) -/

/-- The body of the range-for loop of `updateDestination`, for one object.  Exact
arithmetic; the binary32 version is `updateDestinationStepF32`. -/
def updateDestinationStep (object : Object) : Object :=
  let current_position := object.position
  match object.direction with
  | Direction.LEFT =>
    { object with
      destination := { x := current_position.x + MOVE * 2, y := current_position.y - MOVE * 2 }
      direction := Direction.TOP_RIGHT }
  | Direction.RIGHT =>
    { object with
      destination := { x := current_position.x - MOVE * 2, y := current_position.y + MOVE * 2 }
      direction := Direction.BOTTOM_LEFT }
  | Direction.TOP_RIGHT =>
    { object with
      destination := { x := current_position.x + MOVE, y := current_position.y }
      direction := Direction.RIGHT }
  | Direction.BOTTOM_LEFT =>
    { object with
      destination := { x := current_position.x - MOVE, y := current_position.y }
      direction := Direction.LEFT }

/-- `updateDestination(objects)`: the loop visits every object once, in order. -/
def updateDestination (objects : List Object) : List Object :=
  objects.map updateDestinationStep

/-! ## Formation setup and frame loop (main.cpp, lines 124-174) -/

def nbr_shapes_by_row : Nat := WINDOW_WIDTH / (CIRCLE_MARGIN + CIRCLE_RADIUS) + 1
def nbr_shapes_by_col : Nat := WINDOW_HEIGHT / (CIRCLE_MARGIN + CIRCLE_RADIUS) + 1
def nbr_shapes : Nat := nbr_shapes_by_row * nbr_shapes_by_col
def vertical_margin : Nat := CIRCLE_MARGIN / 2

/-- The body of the setup loop of `main` for index `i`: the object that
`objects.emplace_back(position, destination)` appends. -/
def buildObject (i : Nat) : Object :=
  let is_odd_vectical_pos := isOdd ((i / nbr_shapes_by_row : Nat) : Int)
  let x_offset : ℚ := if !is_odd_vectical_pos then -MOVE / 2 else MOVE / 2
  let position : Vector2f :=
    { x := (((CIRCLE_RADIUS + CIRCLE_MARGIN) * (i % nbr_shapes_by_row) : Nat) : ℚ) - x_offset
      y := (((CIRCLE_RADIUS + CIRCLE_MARGIN) * (i / nbr_shapes_by_row) + vertical_margin : Nat) : ℚ) }
  let direction : ℚ := if is_odd_vectical_pos then -MOVE else MOVE
  let destination : Vector2f := { x := position.x + direction, y := position.y }
  Object.ctor position destination

/-- The vector `objects` when the main loop is entered. -/
def initialObjects : List Object :=
  (List.range nbr_shapes).map buildObject

/-- The arrival test of the frame loop, applied to one object. -/
def arrived (object : Object) : Bool :=
  decide (object.destination.x = object.position.x) &&
    decide (object.destination.y = object.position.y)

/-- One iteration of the main loop, as a function of the frame's `pixel_move`:
arrival test on `objects.front()`, `updateDestination` if it holds, then `draw` on
every object.  `front()` needs a non-empty vector; `main` always has 256 objects,
and the empty list is left as it is. -/
def frame (objects : List Object) (pixel_move : ℚ) : List Object :=
  match objects with
  | [] => []
  | first_circle :: _ =>
    let objects1 := if arrived first_circle then updateDestination objects else objects
    objects1.map (fun object => draw object pixel_move)

/-- The objects after the frames whose step magnitudes are listed in `pixel_moves`. -/
def runFrames (pixel_moves : List ℚ) : List Object :=
  pixel_moves.foldl frame initialObjects

/-- Repeated application of the motion planner on one axis with a fixed step:
`current := current + calculateMoveDistance(current, destination, maxStep)`. -/
def moveAxis (destination maxStep current : ℚ) : ℚ :=
  current + calculateMoveDistance current destination maxStep

/-- The direction cycle as the specification words it:
LEFT -> TOP_RIGHT -> RIGHT -> BOTTOM_LEFT -> LEFT.  Used only to compare with the direction
component of `updateDestination`. -/
def specDirectionCycle : Direction → Direction
  | Direction.LEFT => Direction.TOP_RIGHT
  | Direction.TOP_RIGHT => Direction.RIGHT
  | Direction.RIGHT => Direction.BOTTOM_LEFT
  | Direction.BOTTOM_LEFT => Direction.LEFT

/-- The direction of the mirrored movement: LEFT and RIGHT swap, TOP_RIGHT and BOTTOM_LEFT
swap. -/
def mirrorDirection : Direction → Direction
  | Direction.LEFT => Direction.RIGHT
  | Direction.RIGHT => Direction.LEFT
  | Direction.TOP_RIGHT => Direction.BOTTOM_LEFT
  | Direction.BOTTOM_LEFT => Direction.TOP_RIGHT

/-- Object `b` moves in step with object `a`: its remaining way `destination - position` and
its direction are those of `a`, or both are mirrored. -/
def InStep (a b : Object) : Prop :=
  (b.destination.x - b.position.x = a.destination.x - a.position.x ∧
    b.destination.y - b.position.y = a.destination.y - a.position.y ∧
    b.direction = a.direction) ∨
  (b.destination.x - b.position.x = -(a.destination.x - a.position.x) ∧
    b.destination.y - b.position.y = -(a.destination.y - a.position.y) ∧
    b.direction = mirrorDirection a.direction)

/-- The formation invariant: the list is non-empty and every object moves in step with the
first one. -/
def Lockstep (objects : List Object) : Prop :=
  ∃ (first_circle : Object) (rest : List Object),
    objects = first_circle :: rest ∧ ∀ o ∈ objects, InStep first_circle o

/-- The object once it stands exactly on its destination: what the motion update reaches
when the remaining way on both axes is within the step. -/
def moveOntoDestination (object : Object) : Object :=
  { object with position := object.destination }

/-- One round of the trajectory: the loop body of `updateDestination`, then the move of the
object onto its new destination. -/
def trajectoryRound (object : Object) : Object :=
  moveOntoDestination (updateDestinationStep object)

/-! ## Binary32 arithmetic

The C++ type `float` is IEEE-754 binary32: 24 significant bits, least normal exponent
`-126`, results rounded to the nearest value, ties to the even significand.  The values are
rationals; overflow to infinity is not modelled, so `fl` is the rounding of the program for
results of magnitude below `2^128`. -/

/-- Rounding of a rational to the nearest integer, ties to the even one. -/
def roundNearestEven (q : ℚ) : ℤ :=
  if q - ⌊q⌋ < 1 / 2 then ⌊q⌋
  else if 1 / 2 < q - ⌊q⌋ then ⌊q⌋ + 1
  else if ⌊q⌋ % 2 = 0 then ⌊q⌋ else ⌊q⌋ + 1

/-- The exponent of the binade of `x`: `floor (log2 |x|)`, and `-126` in the subnormal
range. -/
def binade (x : ℚ) : ℤ := max (Int.log 2 |x|) (-126)

/-- The spacing of the binary32 values in the binade of `x`. -/
def ulp (x : ℚ) : ℚ := 2 ^ (binade x - 23)

/-- Rounding of the exact result `x` of a `float` operation to binary32. -/
def fl (x : ℚ) : ℚ := roundNearestEven (x / ulp x) * ulp x

/-- The rational `x` is a binary32 value: rounding leaves it as it is. -/
def IsBinary32 (x : ℚ) : Prop := fl x = x

instance (x : ℚ) : Decidable (IsBinary32 x) := by
  unfold IsBinary32
  infer_instance

/-- `calculateMoveDistance` (main.cpp, lines 47-57) with its three `float` operations
`destination - current_position`, `current_position - move_distance` and
`current_position + move_distance` rounded to binary32, each operation being evaluated in
`float`.  Negation and the comparisons are exact. -/
def calculateMoveDistanceF32 (current_position destination move_distance : ℚ) : ℚ :=
  let distance := fl (destination - current_position)
  if distance < 0 then
    if fl (current_position - move_distance) < destination then distance else -move_distance
  else if distance > 0 then
    if fl (current_position + move_distance) > destination then distance else move_distance
  else 0

/-- `draw` (main.cpp, lines 66-74) in binary32: `shape.move` adds each delta to the
coordinate with a `float` addition. -/
def drawF32 (object : Object) (pixel_move : ℚ) : Object :=
  { object with
    position :=
      { x := fl (object.position.x +
          calculateMoveDistanceF32 object.position.x object.destination.x pixel_move)
        y := fl (object.position.y +
          calculateMoveDistanceF32 object.position.y object.destination.y pixel_move) } }

/-- The loop body of `updateDestination` (main.cpp, lines 85-113) in binary32: the products
`MOVE * 2` and the sums and differences are `float` operations. -/
def updateDestinationStepF32 (object : Object) : Object :=
  let current_position := object.position
  match object.direction with
  | Direction.LEFT =>
    { object with
      destination := { x := fl (current_position.x + fl (MOVE * 2))
                       y := fl (current_position.y - fl (MOVE * 2)) }
      direction := Direction.TOP_RIGHT }
  | Direction.RIGHT =>
    { object with
      destination := { x := fl (current_position.x - fl (MOVE * 2))
                       y := fl (current_position.y + fl (MOVE * 2)) }
      direction := Direction.BOTTOM_LEFT }
  | Direction.TOP_RIGHT =>
    { object with
      destination := { x := fl (current_position.x + MOVE), y := current_position.y }
      direction := Direction.RIGHT }
  | Direction.BOTTOM_LEFT =>
    { object with
      destination := { x := fl (current_position.x - MOVE), y := current_position.y }
      direction := Direction.LEFT }

/-- `updateDestination` in binary32. -/
def updateDestinationF32 (objects : List Object) : List Object :=
  objects.map updateDestinationStepF32

/-- One iteration of the main loop (main.cpp, lines 164-174) in binary32, as a function of the
frame's `pixel_move`. -/
def frameF32 (objects : List Object) (pixel_move : ℚ) : List Object :=
  match objects with
  | [] => []
  | first_circle :: _ =>
    let objects1 := if arrived first_circle then updateDestinationF32 objects else objects
    objects1.map (fun object => drawF32 object pixel_move)

/-- The objects after the frames whose step magnitudes are listed in `pixel_moves`, in
binary32.  The formation that `main` builds consists of small integers, which the setup loop
computes without rounding, so the run starts from `initialObjects`. -/
def runFramesF32 (pixel_moves : List ℚ) : List Object :=
  pixel_moves.foldl frameF32 initialObjects

/-- Rounding to binary64, the C++ type `double`: 53 significant bits, least normal exponent
`-1022`. -/
def fl64 (x : ℚ) : ℚ :=
  roundNearestEven (x / 2 ^ (max (Int.log 2 |x|) (-1022) - 52)) *
    2 ^ (max (Int.log 2 |x|) (-1022) - 52)

/-- `MOVE_SPEED` (main.cpp, line 13) as the `float` constant of the program:
`static_cast<float>(MOVE) / MOVE_TIME` is a `float` quotient, its quotient by the `double`
constant `1000.0` is a `double`, and the initialisation converts it to `float`. -/
def MOVE_SPEED_F32 : ℚ := fl (fl64 (fl (MOVE / MOVE_TIME) / 1000))

/-- The step of a frame (main.cpp, line 172): `MOVE_SPEED * clock.restart().asMilliseconds()`,
the `float` product of `MOVE_SPEED` and the elapsed milliseconds `ms` converted to `float`. -/
def pixelMoveF32 (ms : ℤ) : ℚ := fl (MOVE_SPEED_F32 * fl (ms : ℚ))

/-- One round of the trajectory in binary32: the loop body of `updateDestination`, then the
move of the object onto its new destination. -/
def trajectoryRoundF32 (object : Object) : Object :=
  moveOntoDestination (updateDestinationStepF32 object)

/-! ## Auxiliary lemmas -/

theorem MOVE_eq : MOVE = 20 := by
  simp only [MOVE, CIRCLE_RADIUS]
  norm_num

theorem updateDestinationStep_position (o : Object) :
    (updateDestinationStep o).position = o.position := by
  unfold updateDestinationStep
  cases h : o.direction <;> simp only [h]

theorem updateDestinationStep_direction (o : Object) :
    (updateDestinationStep o).direction = specDirectionCycle o.direction := by
  unfold updateDestinationStep
  cases h : o.direction <;> simp only [h, specDirectionCycle]

theorem updateDestinationStep_iterate_direction (k : Nat) :
    ∀ o : Object, (updateDestinationStep^[k] o).direction = specDirectionCycle^[k] o.direction := by
  induction k with
  | zero => intro o; rfl
  | succ k ih =>
    intro o
    rw [Function.iterate_succ_apply, Function.iterate_succ_apply, ih,
      updateDestinationStep_direction]

theorem updateDestination_iterate (k : Nat) :
    ∀ objects : List Object,
      updateDestination^[k] objects = objects.map (updateDestinationStep^[k]) := by
  induction k with
  | zero => intro objects; simp
  | succ k ih =>
    intro objects
    rw [Function.iterate_succ_apply, ih, updateDestination, List.map_map]
    rfl

theorem specDirectionCycle_period (d : Direction) :
    specDirectionCycle^[4] d = d ∧ specDirectionCycle^[1] d ≠ d ∧
      specDirectionCycle^[2] d ≠ d ∧ specDirectionCycle^[3] d ≠ d := by
  cases d <;> simp [specDirectionCycle]

theorem isOdd_natCast (n : Nat) : isOdd (n : Int) = decide (n % 2 = 1) := by
  unfold isOdd
  have h1 : ((n : Int) % 2 ^ 32).toNat = n % 2 ^ 32 := by
    have : ((n : Int) % 2 ^ 32) = ((n % 2 ^ 32 : Nat) : Int) := by
      push_cast
      rfl
    rw [this, Int.toNat_natCast]
  have h2 : n % 2 ^ 32 % 2 = n % 2 := Nat.mod_mod_of_dvd n (by norm_num)
  rw [h1, Nat.and_one_is_mod, h2]
  rcases Nat.mod_two_eq_zero_or_one n with h | h <;> simp [h]


theorem calculateMoveDistance_eq_clamp (c d m : ℚ) (hm : 0 ≤ m) :
    calculateMoveDistance c d m = max (-m) (min m (d - c)) := by
  unfold calculateMoveDistance
  simp only []
  split_ifs with h1 h2 h3 h4
  · rw [min_eq_right (by linarith), max_eq_right (by linarith)]
  · rw [min_eq_right (by linarith), max_eq_left (by linarith)]
  · rw [min_eq_right (by linarith), max_eq_right (by linarith)]
  · rw [min_eq_left (by linarith), max_eq_right (by linarith)]
  · have h5 : d - c = 0 := le_antisymm (not_lt.mp h3) (not_lt.mp h1)
    rw [h5, min_eq_right hm, max_eq_right (by linarith)]

/-- The five outcomes of `calculateMoveDistance`, with the comparisons solved for
`destination`. -/
theorem calculateMoveDistance_outcomes (c d m : ℚ) :
    (d < c ∧ c - m < d ∧ calculateMoveDistance c d m = d - c) ∨
    (d < c ∧ d ≤ c - m ∧ calculateMoveDistance c d m = -m) ∨
    (c < d ∧ d < c + m ∧ calculateMoveDistance c d m = d - c) ∨
    (c < d ∧ c + m ≤ d ∧ calculateMoveDistance c d m = m) ∨
    (c = d ∧ calculateMoveDistance c d m = 0) := by
  unfold calculateMoveDistance
  simp only []
  split_ifs with h1 h2 h3 h4
  · exact Or.inl ⟨by linarith, h2, rfl⟩
  · exact Or.inr (Or.inl ⟨by linarith, not_lt.mp h2, rfl⟩)
  · exact Or.inr (Or.inr (Or.inl ⟨by linarith, h4, rfl⟩))
  · exact Or.inr (Or.inr (Or.inr (Or.inl ⟨by linarith, not_lt.mp h4, rfl⟩)))
  · exact Or.inr (Or.inr (Or.inr (Or.inr ⟨by linarith [not_lt.mp h1, not_lt.mp h3], rfl⟩)))

/-- One step of `moveAxis` shortens the remaining distance by the
step, or lands on the destination. -/
theorem moveAxis_progress (c d m b : ℚ) (hb : |d - c| ≤ b + m) (hb0 : 0 ≤ b) :
    |d - moveAxis d m c| ≤ b := by
  unfold moveAxis
  rcases calculateMoveDistance_outcomes c d m with
    ⟨_, _, h⟩ | ⟨h1, h2, h⟩ | ⟨_, _, h⟩ | ⟨h1, h2, h⟩ | ⟨_, h⟩
  · rw [h]; simpa using hb0
  · rw [h]
    rw [abs_of_neg (by linarith)] at hb
    rw [abs_of_nonpos (by linarith)]
    linarith
  · rw [h]; simpa using hb0
  · rw [h]
    rw [abs_of_pos (by linarith)] at hb
    rw [abs_of_nonneg (by linarith)]
    linarith
  · rw [h]
    subst_vars
    simpa using hb0

/-- After `k` steps of size `m > 0` a remaining distance of at most `k * m` is used up. -/
theorem moveAxis_iterate_arrives (d m : ℚ) (hm : 0 < m) :
    ∀ (k : Nat) (c : ℚ), |d - c| ≤ k * m → (moveAxis d m)^[k] c = d := by
  intro k
  induction k with
  | zero =>
    intro c h
    have h0 : |d - c| = 0 := le_antisymm (by simpa using h) (abs_nonneg _)
    have h1 : d - c = 0 := abs_eq_zero.mp h0
    simp only [Function.iterate_zero, id_eq]
    linarith
  | succ k ih =>
    intro c h
    rw [Function.iterate_succ_apply]
    apply ih
    apply moveAxis_progress c d m
    · have : ((k + 1 : Nat) : ℚ) * m = k * m + m := by push_cast; ring
      linarith
    · positivity

/-- The delta depends only on the remaining way `destination - current`. -/
theorem calculateMoveDistance_same (c d c2 d2 m : ℚ) (h : d2 - c2 = d - c) :
    calculateMoveDistance c2 d2 m = calculateMoveDistance c d m := by
  rcases calculateMoveDistance_outcomes c d m with
    ⟨h1, h2, e⟩ | ⟨h1, h2, e⟩ | ⟨h1, h2, e⟩ | ⟨h1, h2, e⟩ | ⟨h1, e⟩ <;>
  rcases calculateMoveDistance_outcomes c2 d2 m with
    ⟨k1, k2, e2⟩ | ⟨k1, k2, e2⟩ | ⟨k1, k2, e2⟩ | ⟨k1, k2, e2⟩ | ⟨k1, e2⟩ <;>
  linarith

/-- Mirroring the remaining way mirrors the delta. -/
theorem calculateMoveDistance_mirror (c d c2 d2 m : ℚ) (h : d2 - c2 = -(d - c)) :
    calculateMoveDistance c2 d2 m = -calculateMoveDistance c d m := by
  rcases calculateMoveDistance_outcomes c d m with
    ⟨h1, h2, e⟩ | ⟨h1, h2, e⟩ | ⟨h1, h2, e⟩ | ⟨h1, h2, e⟩ | ⟨h1, e⟩ <;>
  rcases calculateMoveDistance_outcomes c2 d2 m with
    ⟨k1, k2, e2⟩ | ⟨k1, k2, e2⟩ | ⟨k1, k2, e2⟩ | ⟨k1, k2, e2⟩ | ⟨k1, e2⟩ <;>
  linarith

theorem draw_inStep (m : ℚ) (a b : Object) (h : InStep a b) :
    InStep (draw a m) (draw b m) := by
  rcases h with ⟨hx, hy, hd⟩ | ⟨hx, hy, hd⟩
  · left
    have ex := calculateMoveDistance_same a.position.x a.destination.x
      b.position.x b.destination.x m hx
    have ey := calculateMoveDistance_same a.position.y a.destination.y
      b.position.y b.destination.y m hy
    refine ⟨?_, ?_, hd⟩
    · simp only [draw]; linarith
    · simp only [draw]; linarith
  · right
    have ex := calculateMoveDistance_mirror a.position.x a.destination.x
      b.position.x b.destination.x m hx
    have ey := calculateMoveDistance_mirror a.position.y a.destination.y
      b.position.y b.destination.y m hy
    refine ⟨?_, ?_, hd⟩
    · simp only [draw]; linarith
    · simp only [draw]; linarith

theorem updateDestinationStep_inStep (a b : Object) (h : InStep a b) :
    InStep (updateDestinationStep a) (updateDestinationStep b) := by
  rcases h with ⟨_, _, hd⟩ | ⟨_, _, hd⟩
  · left
    cases ha : a.direction <;> rw [ha] at hd <;>
      simp only [updateDestinationStep, ha, hd] <;>
      exact ⟨by ring, by ring, trivial⟩
  · right
    cases ha : a.direction <;> rw [ha] at hd <;>
      simp only [mirrorDirection] at hd <;>
      simp only [updateDestinationStep, ha, hd, mirrorDirection] <;>
      exact ⟨by ring, by ring, trivial⟩

theorem arrived_iff (o : Object) :
    arrived o = true ↔
      o.destination.x - o.position.x = 0 ∧ o.destination.y - o.position.y = 0 := by
  simp only [arrived, Bool.and_eq_true, decide_eq_true_eq, sub_eq_zero]

theorem arrived_of_inStep (a b : Object) (h : InStep a b) :
    arrived a = true ↔ arrived b = true := by
  rw [arrived_iff, arrived_iff]
  rcases h with ⟨hx, hy, _⟩ | ⟨hx, hy, _⟩
  · rw [hx, hy]
  · rw [hx, hy, neg_eq_zero, neg_eq_zero]

theorem lockstep_map (g : Object → Object)
    (hg : ∀ a b : Object, InStep a b → InStep (g a) (g b))
    (objects : List Object) (h : Lockstep objects) : Lockstep (objects.map g) := by
  obtain ⟨first_circle, rest, rfl, hall⟩ := h
  refine ⟨g first_circle, rest.map g, by simp, ?_⟩
  intro o ho
  obtain ⟨o1, ho1, rfl⟩ := List.mem_map.mp ho
  exact hg first_circle o1 (hall o1 ho1)

theorem frame_lockstep (m : ℚ) (objects : List Object) (h : Lockstep objects) :
    Lockstep (frame objects m) := by
  obtain ⟨first_circle, rest, rfl, hall⟩ := h
  have h0 : Lockstep (first_circle :: rest) := ⟨first_circle, rest, rfl, hall⟩
  simp only [frame]
  split_ifs with ha
  · apply lockstep_map _ (draw_inStep m)
    exact lockstep_map _ updateDestinationStep_inStep _ h0
  · exact lockstep_map _ (draw_inStep m) _ h0

theorem foldl_frame_lockstep (pixel_moves : List ℚ) :
    ∀ objects : List Object, Lockstep objects → Lockstep (pixel_moves.foldl frame objects) := by
  induction pixel_moves with
  | nil => intro objects h; exact h
  | cons m ms ih =>
    intro objects h
    rw [List.foldl_cons]
    exact ih _ (frame_lockstep m objects h)

/-- What the setup loop builds at index `i`: one `MOVE` to go to the right with direction
RIGHT, or one `MOVE` to go to the left with direction LEFT. -/
theorem buildObject_way (i : Nat) :
    ((buildObject i).destination.x - (buildObject i).position.x = MOVE ∧
      (buildObject i).destination.y - (buildObject i).position.y = 0 ∧
      (buildObject i).direction = Direction.RIGHT) ∨
    ((buildObject i).destination.x - (buildObject i).position.x = -MOVE ∧
      (buildObject i).destination.y - (buildObject i).position.y = 0 ∧
      (buildObject i).direction = Direction.LEFT) := by
  have hM : (0 : ℚ) < MOVE := by rw [MOVE_eq]; norm_num
  cases hodd : isOdd ((i / nbr_shapes_by_row : Nat) : Int)
  · left
    simp only [buildObject, hodd, Object.ctor]
    refine ⟨by simp, by simp, by simp [hM.le]⟩
  · right
    simp only [buildObject, hodd, Object.ctor]
    refine ⟨by simp, by simp, by simp [hM]⟩

theorem buildObject_zero_way :
    (buildObject 0).destination.x - (buildObject 0).position.x = MOVE ∧
      (buildObject 0).destination.y - (buildObject 0).position.y = 0 ∧
      (buildObject 0).direction = Direction.RIGHT := by
  have hM : (0 : ℚ) < MOVE := by rw [MOVE_eq]; norm_num
  have hodd : isOdd ((0 / nbr_shapes_by_row : Nat) : Int) = false := by
    rw [isOdd_natCast]; simp
  simp only [buildObject, hodd, Object.ctor]
  refine ⟨by simp, by simp, by simp [hM.le]⟩

theorem initialObjects_lockstep : Lockstep initialObjects := by
  have hn : nbr_shapes = 255 + 1 := by
    simp [nbr_shapes, nbr_shapes_by_row, nbr_shapes_by_col, WINDOW_WIDTH, WINDOW_HEIGHT,
      CIRCLE_MARGIN, CIRCLE_RADIUS]
  refine ⟨buildObject 0, ((List.range 255).map Nat.succ).map buildObject, ?_, ?_⟩
  · rw [initialObjects, hn, List.range_succ_eq_map, List.map_cons]
  · intro o ho
    obtain ⟨i, _, rfl⟩ := List.mem_map.mp ho
    obtain ⟨zx, zy, zd⟩ := buildObject_zero_way
    rcases buildObject_way i with ⟨hx, hy, hd⟩ | ⟨hx, hy, hd⟩
    · left
      exact ⟨by rw [hx, zx], by rw [hy, zy], by rw [hd, zd]⟩
    · right
      exact ⟨by rw [hx, zx], by rw [hy, zy, neg_zero], by rw [hd, zd]; rfl⟩

theorem isOdd_iff_emod (number : Int) : isOdd number = true ↔ number % 2 = 1 := by
  unfold isOdd
  have hnn : 0 ≤ number % 2 ^ 32 := Int.emod_nonneg _ (by norm_num)
  have hcast : (((number % 2 ^ 32).toNat : Nat) : Int) = number % 2 ^ 32 :=
    Int.toNat_of_nonneg hnn
  have hmod : number % 2 ^ 32 % 2 = number % 2 :=
    Int.emod_emod_of_dvd number (by norm_num)
  rw [Nat.and_one_is_mod]
  have h2 : (((number % 2 ^ 32).toNat % 2 : Nat) : Int) = number % 2 := by
    rw [Int.natCast_mod, hcast, Nat.cast_ofNat, hmod]
  rcases Nat.mod_two_eq_zero_or_one (number % 2 ^ 32).toNat with h | h
  · rw [h] at h2
    simp only [h, bne_self_eq_false, Bool.false_eq_true, false_iff]
    intro h1
    rw [h1] at h2
    norm_num at h2
  · rw [h] at h2
    simp only [h, Nat.cast_one] at h2 ⊢
    simp [h2.symm]

theorem updateDestination_getElem? (objects : List Object) (i : Nat) :
    (updateDestination objects)[i]? = (objects[i]?).map updateDestinationStep := by
  simp [updateDestination, List.getElem?_map]

/-- `updateDestinationStep` reads nothing but the position and the direction. -/
theorem updateDestinationStep_congr (o1 o2 : Object) (hp : o1.position = o2.position)
    (hd : o1.direction = o2.direction) :
    (updateDestinationStep o1).destination = (updateDestinationStep o2).destination ∧
      (updateDestinationStep o1).direction = (updateDestinationStep o2).direction := by
  unfold updateDestinationStep
  rw [hp, hd]
  cases o2.direction <;> exact ⟨rfl, rfl⟩

/-- A step that covers the remaining way lands exactly on the destination. -/
theorem calculateMoveDistance_within (c d m : ℚ) (h : |d - c| ≤ m) :
    c + calculateMoveDistance c d m = d := by
  have hb := abs_le.mp h
  rcases calculateMoveDistance_outcomes c d m with
    ⟨_, _, e⟩ | ⟨_, _, e⟩ | ⟨_, _, e⟩ | ⟨_, _, e⟩ | ⟨_, e⟩ <;>
  linarith [hb.1, hb.2]

theorem calculateMoveDistance_zero_step (c d : ℚ) : calculateMoveDistance c d 0 = 0 := by
  rcases calculateMoveDistance_outcomes c d 0 with
    ⟨_, _, e⟩ | ⟨_, _, e⟩ | ⟨_, _, e⟩ | ⟨_, _, e⟩ | ⟨_, e⟩ <;>
  linarith

theorem draw_zero_step (o : Object) : draw o 0 = o := by
  simp [draw, calculateMoveDistance_zero_step]

theorem draw_eq_moveOntoDestination (o : Object) (m : ℚ)
    (hx : |o.destination.x - o.position.x| ≤ m)
    (hy : |o.destination.y - o.position.y| ≤ m) :
    draw o m = moveOntoDestination o := by
  simp only [draw, moveOntoDestination,
    calculateMoveDistance_within o.position.x o.destination.x m hx,
    calculateMoveDistance_within o.position.y o.destination.y m hy]

/-- The way that `updateDestinationStep` sets is at most `2 * MOVE` on each axis. -/
theorem updateDestinationStep_way (o : Object) :
    |(updateDestinationStep o).destination.x - (updateDestinationStep o).position.x| ≤ 2 * MOVE ∧
    |(updateDestinationStep o).destination.y - (updateDestinationStep o).position.y| ≤ 2 * MOVE := by
  unfold updateDestinationStep
  cases o.direction <;> simp only [MOVE_eq] <;> constructor <;> rw [abs_le] <;>
    constructor <;> linarith

/-- The way that `updateDestinationStep` sets is never zero on the x axis. -/
theorem updateDestinationStep_not_arrived (o : Object) :
    (updateDestinationStep o).destination.x ≠ (updateDestinationStep o).position.x ∧
      arrived (updateDestinationStep o) = false := by
  have hx : (updateDestinationStep o).destination.x ≠ (updateDestinationStep o).position.x := by
    unfold updateDestinationStep
    cases o.direction <;> simp only [MOVE_eq] <;> intro h <;> linarith
  refine ⟨hx, ?_⟩
  simp [arrived, hx]

theorem draw_updateDestinationStep (o : Object) (m : ℚ) (hm : 2 * MOVE ≤ m) :
    draw (updateDestinationStep o) m = trajectoryRound o := by
  obtain ⟨hx, hy⟩ := updateDestinationStep_way o
  exact draw_eq_moveOntoDestination _ m (le_trans hx hm) (le_trans hy hm)

theorem trajectoryRound_arrived (o : Object) : arrived (trajectoryRound o) = true := by
  simp [arrived, trajectoryRound, moveOntoDestination]

theorem trajectoryRound_four (o : Object) :
    (trajectoryRound^[4] o).position = o.position ∧
      (trajectoryRound^[4] o).direction = o.direction := by
  obtain ⟨⟨x, y⟩, dest, dir⟩ := o
  cases dir <;>
    simp only [Function.iterate_succ, Function.iterate_zero, Function.comp_apply, id_eq,
      trajectoryRound, moveOntoDestination, updateDestinationStep, and_true,
      Vector2f.mk.injEq] <;>
    constructor <;> ring

/-- A frame that starts with the first object arrived and has a step of at least `2 * MOVE`
performs one trajectory round on every object. -/
theorem frame_eq_trajectoryRound (first_circle : Object) (rest : List Object) (m : ℚ)
    (ha : arrived first_circle = true) (hm : 2 * MOVE ≤ m) :
    frame (first_circle :: rest) m = (first_circle :: rest).map trajectoryRound := by
  simp only [frame, ha, if_true, updateDestination, List.map_map]
  apply List.map_congr_left
  intro o _
  exact draw_updateDestinationStep o m hm

/-! ### Rounding to binary32 -/

theorem roundNearestEven_intCast (z : ℤ) : roundNearestEven (z : ℚ) = z := by
  unfold roundNearestEven
  simp

theorem roundNearestEven_of_lt (q : ℚ) (f : ℤ) (h1 : (f : ℚ) ≤ q) (h2 : q - f < 1 / 2) :
    roundNearestEven q = f := by
  have hf : ⌊q⌋ = f := by
    rw [Int.floor_eq_iff]
    exact ⟨h1, by linarith⟩
  unfold roundNearestEven
  rw [hf, if_pos h2]

theorem roundNearestEven_of_gt (q : ℚ) (f : ℤ) (h1 : q < (f : ℚ) + 1) (h2 : 1 / 2 < q - f) :
    roundNearestEven q = f + 1 := by
  have hf : ⌊q⌋ = f := by
    rw [Int.floor_eq_iff]
    exact ⟨by linarith, h1⟩
  unfold roundNearestEven
  rw [hf, if_neg (not_lt.mpr (le_of_lt h2)), if_pos h2]

theorem roundNearestEven_tie_even (q : ℚ) (f : ℤ) (h1 : q = (f : ℚ) + 1 / 2) (h2 : f % 2 = 0) :
    roundNearestEven q = f := by
  have hf : ⌊q⌋ = f := by
    rw [Int.floor_eq_iff]
    exact ⟨by linarith, by linarith⟩
  have e : q - (f : ℚ) = 1 / 2 := by linarith
  unfold roundNearestEven
  rw [hf, e, if_neg (lt_irrefl _), if_neg (lt_irrefl _), if_pos h2]

theorem roundNearestEven_tie_odd (q : ℚ) (f : ℤ) (h1 : q = (f : ℚ) + 1 / 2) (h2 : f % 2 = 1) :
    roundNearestEven q = f + 1 := by
  have hf : ⌊q⌋ = f := by
    rw [Int.floor_eq_iff]
    exact ⟨by linarith, by linarith⟩
  have e : q - (f : ℚ) = 1 / 2 := by linarith
  have h3 : ¬ f % 2 = 0 := by omega
  unfold roundNearestEven
  rw [hf, e, if_neg (lt_irrefl _), if_neg (lt_irrefl _), if_neg h3]

theorem binade_eq (x : ℚ) (e : ℤ) (he : -126 ≤ e) (h1 : (2 : ℚ) ^ e ≤ |x|)
    (h2 : |x| < (2 : ℚ) ^ (e + 1)) : binade x = e := by
  have hpos : 0 < |x| := lt_of_lt_of_le (by positivity) h1
  have hlog : Int.log 2 |x| = e := by
    apply le_antisymm
    · have := (Int.lt_zpow_iff_log_lt (by norm_num : 1 < 2) hpos (x := e + 1)).mp
        (by simpa using h2)
      omega
    · exact (Int.zpow_le_iff_le_log (by norm_num : 1 < 2) hpos).mp (by simpa using h1)
  unfold binade
  rw [hlog, max_eq_left he]

theorem fl_eq (x : ℚ) (e n : ℤ) (he : -126 ≤ e) (h1 : (2 : ℚ) ^ e ≤ |x|)
    (h2 : |x| < (2 : ℚ) ^ (e + 1)) (hn : roundNearestEven (x / 2 ^ (e - 23)) = n) :
    fl x = n * 2 ^ (e - 23) := by
  unfold fl ulp
  rw [binade_eq x e he h1 h2, hn]

theorem fl_zero : fl 0 = 0 := by
  simp [fl, roundNearestEven]

theorem ulp_pos (x : ℚ) : 0 < ulp x := by
  unfold ulp
  positivity

theorem binade_ge (x : ℚ) : -126 ≤ binade x := le_max_right _ _

/-- Integers of magnitude below `2^24` are binary32 values. -/
theorem fl_intCast (n : ℤ) (h : |n| < 2 ^ 24) : fl (n : ℚ) = n := by
  rcases eq_or_ne n 0 with rfl | hn
  · simpa using fl_zero
  have hpos : (0 : ℚ) < |(n : ℚ)| := abs_pos.mpr (by exact_mod_cast hn)
  have h1 : (1 : ℚ) ≤ |(n : ℚ)| := by
    have : (1 : ℤ) ≤ |n| := Int.one_le_abs hn
    exact_mod_cast this
  have h2 : |(n : ℚ)| < 2 ^ 24 := by exact_mod_cast h
  have hlo : 0 ≤ Int.log 2 |(n : ℚ)| :=
    (Int.zpow_le_iff_le_log (by norm_num : 1 < 2) hpos).mp (by simpa using h1)
  have hhi : Int.log 2 |(n : ℚ)| < 24 :=
    (Int.lt_zpow_iff_log_lt (by norm_num : 1 < 2) hpos).mp (by
      rw [Nat.cast_ofNat]
      norm_num
      exact h2)
  have hb : binade (n : ℚ) = Int.log 2 |(n : ℚ)| := by
    unfold binade
    exact max_eq_left (by omega)
  obtain ⟨k, hk⟩ : ∃ k : ℕ, (k : ℤ) = 23 - Int.log 2 |(n : ℚ)| :=
    ⟨(23 - Int.log 2 |(n : ℚ)|).toNat, Int.toNat_of_nonneg (by omega)⟩
  have hu : ulp (n : ℚ) = ((2 : ℚ) ^ k)⁻¹ := by
    unfold ulp
    rw [hb, ← zpow_natCast, hk, ← zpow_neg]
    congr 1
    ring
  have hq : (n : ℚ) / ulp (n : ℚ) = ((n * 2 ^ k : ℤ) : ℚ) := by
    rw [hu]
    push_cast
    field_simp
  unfold fl
  rw [hq, roundNearestEven_intCast, hu]
  push_cast
  field_simp

theorem floor_le_roundNearestEven (q : ℚ) : ⌊q⌋ ≤ roundNearestEven q := by
  unfold roundNearestEven
  split_ifs <;> omega

theorem roundNearestEven_le_ceil (q : ℚ) : roundNearestEven q ≤ ⌈q⌉ := by
  have h0 : ⌊q⌋ ≤ ⌈q⌉ := Int.floor_le_ceil q
  have hstep : 0 < q - ⌊q⌋ → ⌊q⌋ + 1 ≤ ⌈q⌉ := by
    intro h
    have : ⌊q⌋ < ⌈q⌉ := Int.lt_ceil.mpr (by linarith)
    omega
  unfold roundNearestEven
  split_ifs with h1 h2 h3
  · exact h0
  · exact hstep (by linarith)
  · exact h0
  · exact hstep (by linarith [not_lt.mp h1])

/-- A binary32 value is a multiple of `2^(-149)`. -/
theorem grid_of_fl_eq (x : ℚ) (h : fl x = x) : ∃ k : ℤ, x = k * (2 : ℚ) ^ (-149 : ℤ) := by
  have hb := binade_ge x
  obtain ⟨j, hj⟩ : ∃ j : ℕ, (j : ℤ) = binade x + 126 :=
    ⟨(binade x + 126).toNat, Int.toNat_of_nonneg (by omega)⟩
  refine ⟨roundNearestEven (x / ulp x) * 2 ^ j, ?_⟩
  have hu : ulp x = (2 : ℚ) ^ j * (2 : ℚ) ^ (-149 : ℤ) := by
    unfold ulp
    rw [← zpow_natCast, hj, ← zpow_add₀ (by norm_num : (2 : ℚ) ≠ 0)]
    congr 1
    ring
  conv_lhs => rw [← h]
  unfold fl
  rw [hu]
  push_cast
  ring

theorem ulp_le_of_grid (x : ℚ) (k : ℤ) (hk : x = k * (2 : ℚ) ^ (-149 : ℤ)) (hx : x ≠ 0) :
    ulp x ≤ |x| := by
  have hpos : 0 < |x| := abs_pos.mpr hx
  unfold ulp binade
  rcases le_total (Int.log 2 |x|) (-126) with hl | hl
  · rw [max_eq_right hl]
    have hk0 : k ≠ 0 := by
      rintro rfl
      simp at hk
      exact hx hk
    have : (1 : ℚ) ≤ |(k : ℚ)| := by
      have : (1 : ℤ) ≤ |k| := Int.one_le_abs hk0
      exact_mod_cast this
    rw [hk, abs_mul, abs_of_pos (by positivity : (0 : ℚ) < 2 ^ (-149 : ℤ))]
    norm_num
    nlinarith [this]
  · rw [max_eq_left hl]
    have h1 : (2 : ℚ) ^ (Int.log 2 |x|) ≤ |x| := by
      simpa using Int.zpow_log_le_self (by norm_num : 1 < 2) hpos
    have h2 : (2 : ℚ) ^ (Int.log 2 |x| - 23) ≤ (2 : ℚ) ^ (Int.log 2 |x|) :=
      zpow_le_zpow_right₀ (by norm_num) (by omega)
    exact le_trans h2 h1

/-- Rounding keeps the sign of a multiple of `2^(-149)`. -/
theorem fl_pos_of_grid (x : ℚ) (k : ℤ) (hk : x = k * (2 : ℚ) ^ (-149 : ℤ)) (hx : 0 < x) :
    0 < fl x := by
  have hu := ulp_pos x
  have hle := ulp_le_of_grid x k hk (ne_of_gt hx)
  rw [abs_of_pos hx] at hle
  have hq : (1 : ℚ) ≤ x / ulp x := by
    rw [le_div_iff₀ hu]
    linarith
  have h1 : (1 : ℤ) ≤ ⌊x / ulp x⌋ := Int.le_floor.mpr (by exact_mod_cast hq)
  have h2 := floor_le_roundNearestEven (x / ulp x)
  have h3 : (1 : ℚ) ≤ (roundNearestEven (x / ulp x) : ℚ) := by exact_mod_cast le_trans h1 h2
  unfold fl
  positivity

theorem fl_neg_of_grid (x : ℚ) (k : ℤ) (hk : x = k * (2 : ℚ) ^ (-149 : ℤ)) (hx : x < 0) :
    fl x < 0 := by
  have hu := ulp_pos x
  have hle := ulp_le_of_grid x k hk (ne_of_lt hx)
  rw [abs_of_neg hx] at hle
  have hq : x / ulp x ≤ (-1 : ℚ) := by
    rw [div_le_iff₀ hu]
    linarith
  have h1 : ⌈x / ulp x⌉ ≤ (-1 : ℤ) := Int.ceil_le.mpr (by exact_mod_cast hq)
  have h2 := roundNearestEven_le_ceil (x / ulp x)
  have h3 : (roundNearestEven (x / ulp x) : ℚ) ≤ (-1 : ℚ) := by exact_mod_cast le_trans h2 h1
  unfold fl
  nlinarith

theorem fl_eq_pos (x : ℚ) (e n : ℤ) (he : -126 ≤ e) (h1 : (2 : ℚ) ^ e ≤ x)
    (h2 : x < (2 : ℚ) ^ (e + 1)) (hn : roundNearestEven (x / 2 ^ (e - 23)) = n) :
    fl x = n * 2 ^ (e - 23) := by
  have hx : 0 < x := lt_of_lt_of_le (by positivity) h1
  exact fl_eq x e n he (by rwa [abs_of_pos hx]) (by rwa [abs_of_pos hx]) hn

theorem fl_eq_neg (x : ℚ) (e n : ℤ) (he : -126 ≤ e) (h1 : (2 : ℚ) ^ e ≤ -x)
    (h2 : -x < (2 : ℚ) ^ (e + 1)) (hn : roundNearestEven (x / 2 ^ (e - 23)) = n) :
    fl x = n * 2 ^ (e - 23) := by
  have hx : x < 0 := by
    have : (0 : ℚ) < -x := lt_of_lt_of_le (by positivity) h1
    linarith
  exact fl_eq x e n he (by rwa [abs_of_neg hx]) (by rwa [abs_of_neg hx]) hn

/-- A rational with a 24-bit significand in its own binade is a binary32 value. -/
theorem isBinary32_of_significand (x : ℚ) (e n : ℤ) (he : -126 ≤ e) (h1 : (2 : ℚ) ^ e ≤ |x|)
    (h2 : |x| < (2 : ℚ) ^ (e + 1)) (hx : x = n * 2 ^ (e - 23)) : IsBinary32 x := by
  have hq : x / 2 ^ (e - 23) = (n : ℚ) := by
    rw [hx]
    field_simp
  unfold IsBinary32
  rw [fl_eq x e n he h1 h2 (by rw [hq]; exact roundNearestEven_intCast n)]
  exact hx.symm

theorem isBinary32_intCast (n : ℤ) (h : |n| < 2 ^ 24) : IsBinary32 (n : ℚ) :=
  fl_intCast n h

/-! ### The first object of the formation in binary32 -/

theorem fl64_eq_pos (x : ℚ) (e n : ℤ) (he : -1022 ≤ e) (h1 : (2 : ℚ) ^ e ≤ x)
    (h2 : x < (2 : ℚ) ^ (e + 1)) (hn : roundNearestEven (x / 2 ^ (e - 52)) = n) :
    fl64 x = n * 2 ^ (e - 52) := by
  have hpos : 0 < |x| := abs_pos.mpr (ne_of_gt (lt_of_lt_of_le (by positivity) h1))
  have hx : |x| = x := abs_of_pos (lt_of_lt_of_le (by positivity) h1)
  have hlog : Int.log 2 |x| = e := by
    apply le_antisymm
    · have := (Int.lt_zpow_iff_log_lt (by norm_num : 1 < 2) hpos (x := e + 1)).mp
        (by rw [hx]; simpa using h2)
      omega
    · exact (Int.zpow_le_iff_le_log (by norm_num : 1 < 2) hpos).mp (by rw [hx]; simpa using h1)
  unfold fl64
  rw [hlog, max_eq_left he, hn]

theorem MOVE_SPEED_F32_eq : MOVE_SPEED_F32 = 5368709 / 67108864 := by
  have h80 : fl (MOVE / MOVE_TIME) = 80 := by
    have h : MOVE / MOVE_TIME = ((80 : ℤ) : ℚ) := by
      rw [MOVE_eq, MOVE_TIME]
      norm_num
    rw [h, fl_intCast 80 (by norm_num)]
    norm_num
  have h64 : fl64 (80 / 1000) = 5764607523034235 / 72057594037927936 := by
    rw [fl64_eq_pos _ (-4) (5764607523034235) (by norm_num) (by norm_num) (by norm_num)
      (roundNearestEven_of_gt _ (5764607523034234) (by norm_num) (by norm_num))]
    norm_num
  unfold MOVE_SPEED_F32
  rw [h80, h64, fl_eq_pos _ (-4) (10737418) (by norm_num) (by norm_num) (by norm_num)
    (roundNearestEven_of_lt _ _ (by norm_num) (by norm_num))]
  norm_num

/-- The steps of frames that last 331, 7 and 563 milliseconds. -/
theorem pixelMoveF32_values :
    pixelMoveF32 331 = 6941573 / 262144 ∧ pixelMoveF32 7 = 9395241 / 16777216 ∧
      pixelMoveF32 563 = 11806965 / 262144 := by
  unfold pixelMoveF32
  rw [MOVE_SPEED_F32_eq, fl_intCast 331 (by norm_num), fl_intCast 7 (by norm_num),
    fl_intCast 563 (by norm_num)]
  refine ⟨?_, ?_, ?_⟩
  · push_cast
    rw [fl_eq_pos _ (4) (13883146) (by norm_num) (by norm_num) (by norm_num)
      (roundNearestEven_of_gt _ (13883145) (by norm_num) (by norm_num))]
    norm_num
  · push_cast
    rw [fl_eq_pos _ (-1) (9395241) (by norm_num) (by norm_num) (by norm_num)
      (roundNearestEven_of_gt _ (9395240) (by norm_num) (by norm_num))]
    norm_num
  · push_cast
    rw [fl_eq_pos _ (5) (11806965) (by norm_num) (by norm_num) (by norm_num)
      (roundNearestEven_of_lt _ _ (by norm_num) (by norm_num))]
    norm_num

theorem fl_MOVE_mul_two : fl (MOVE * 2) = 40 := by
  have h : MOVE * 2 = ((40 : ℤ) : ℚ) := by
    rw [MOVE_eq]
    norm_num
  rw [h, fl_intCast 40 (by norm_num)]
  norm_num

theorem initialObjects_head :
    initialObjects.head? = some ⟨⟨10, 15⟩, ⟨30, 15⟩, Direction.RIGHT⟩ := by
  have hn : nbr_shapes = 255 + 1 := by
    simp [nbr_shapes, nbr_shapes_by_row, nbr_shapes_by_col, WINDOW_WIDTH, WINDOW_HEIGHT,
      CIRCLE_MARGIN, CIRCLE_RADIUS]
  have hodd : isOdd ((0 / nbr_shapes_by_row : Nat) : Int) = false := by
    rw [isOdd_natCast]; simp
  have h0 : buildObject 0 = ⟨⟨10, 15⟩, ⟨30, 15⟩, Direction.RIGHT⟩ := by
    simp only [buildObject, hodd, Object.ctor, MOVE_eq, CIRCLE_RADIUS, CIRCLE_MARGIN,
      vertical_margin]
    norm_num
  rw [initialObjects, hn, List.range_succ_eq_map, List.map_cons, List.head?_cons, h0]

theorem frameF32_head (objects : List Object) (first_circle : Object) (m : ℚ)
    (h : objects.head? = some first_circle) :
    (frameF32 objects m).head? = some (drawF32
      (if arrived first_circle = true then updateDestinationStepF32 first_circle
        else first_circle) m) := by
  cases objects with
  | nil => simp at h
  | cons a rest =>
    simp only [List.head?_cons, Option.some.injEq] at h
    subst h
    simp only [frameF32]
    split_ifs <;> simp [updateDestinationF32]

theorem drawF32_trace_one :
    drawF32 ⟨⟨10, 15⟩, ⟨30, 15⟩, Direction.RIGHT⟩
        (6941573 / 262144)
      = ⟨⟨30, 15⟩, ⟨30, 15⟩, Direction.RIGHT⟩ := by
  have hxd : fl (30 - 10) = 20 := by
    rw [fl_eq_pos _ (4) (10485760) (by norm_num) (by norm_num) (by norm_num)
      (roundNearestEven_of_lt _ _ (by norm_num) (by norm_num))]
    norm_num
  have hxs : fl (10 + 6941573 / 262144) = 9563013 / 262144 := by
    rw [fl_eq_pos _ (5) (9563013) (by norm_num) (by norm_num) (by norm_num)
      (roundNearestEven_of_lt _ _ (by norm_num) (by norm_num))]
    norm_num
  have hxc : calculateMoveDistanceF32 (10) (30) (6941573 / 262144) = 20 := by
    simp only [calculateMoveDistanceF32, hxd, hxs]
    norm_num
  have hxl : fl (10 + 20) = 30 := by
    rw [fl_eq_pos _ (4) (15728640) (by norm_num) (by norm_num) (by norm_num)
      (roundNearestEven_of_lt _ _ (by norm_num) (by norm_num))]
    norm_num
  have hyd : fl (15 - 15) = 0 := by
    rw [show (15 - 15 : ℚ) = 0 by norm_num]
    exact fl_zero
  have hyc : calculateMoveDistanceF32 (15) (15) (6941573 / 262144) = 0 := by
    simp only [calculateMoveDistanceF32, hyd]
    norm_num
  have hyl : fl (15 + 0) = 15 := by
    rw [fl_eq_pos _ (3) (15728640) (by norm_num) (by norm_num) (by norm_num)
      (roundNearestEven_of_lt _ _ (by norm_num) (by norm_num))]
    norm_num
  simp only [drawF32, hxc, hxl, hyc, hyl]

theorem drawF32_trace_two :
    drawF32 ⟨⟨30, 15⟩, ⟨-10, 55⟩, Direction.BOTTOM_LEFT⟩
        (9395241 / 16777216)
      = ⟨⟨15435039 / 524288, 16315843 / 1048576⟩, ⟨-10, 55⟩, Direction.BOTTOM_LEFT⟩ := by
  have hxd : fl (-10 - 30) = -40 := by
    rw [fl_eq_neg _ (5) (-10485760) (by norm_num) (by norm_num) (by norm_num)
      (roundNearestEven_of_lt _ _ (by norm_num) (by norm_num))]
    norm_num
  have hxs : fl (30 - 9395241 / 16777216) = 15435039 / 524288 := by
    rw [fl_eq_pos _ (4) (15435039) (by norm_num) (by norm_num) (by norm_num)
      (roundNearestEven_of_gt _ (15435038) (by norm_num) (by norm_num))]
    norm_num
  have hxc : calculateMoveDistanceF32 (30) (-10) (9395241 / 16777216) = -9395241 / 16777216 := by
    simp only [calculateMoveDistanceF32, hxd, hxs]
    norm_num
  have hxl : fl (30 + -9395241 / 16777216) = 15435039 / 524288 := by
    rw [fl_eq_pos _ (4) (15435039) (by norm_num) (by norm_num) (by norm_num)
      (roundNearestEven_of_gt _ (15435038) (by norm_num) (by norm_num))]
    norm_num
  have hyd : fl (55 - 15) = 40 := by
    rw [fl_eq_pos _ (5) (10485760) (by norm_num) (by norm_num) (by norm_num)
      (roundNearestEven_of_lt _ _ (by norm_num) (by norm_num))]
    norm_num
  have hys : fl (15 + 9395241 / 16777216) = 16315843 / 1048576 := by
    rw [fl_eq_pos _ (3) (16315843) (by norm_num) (by norm_num) (by norm_num)
      (roundNearestEven_of_gt _ (16315842) (by norm_num) (by norm_num))]
    norm_num
  have hyc : calculateMoveDistanceF32 (15) (55) (9395241 / 16777216) = 9395241 / 16777216 := by
    simp only [calculateMoveDistanceF32, hyd, hys]
    norm_num
  have hyl : fl (15 + 9395241 / 16777216) = 16315843 / 1048576 := by
    rw [fl_eq_pos _ (3) (16315843) (by norm_num) (by norm_num) (by norm_num)
      (roundNearestEven_of_gt _ (16315842) (by norm_num) (by norm_num))]
    norm_num
  simp only [drawF32, hxc, hxl, hyc, hyl]

theorem drawF32_trace_three :
    drawF32 ⟨⟨15435039 / 524288, 16315843 / 1048576⟩, ⟨-10, 55⟩, Direction.BOTTOM_LEFT⟩
        (11806965 / 262144)
      = ⟨⟨-5242881 / 524288, 55⟩, ⟨-10, 55⟩, Direction.BOTTOM_LEFT⟩ := by
  have hxd : fl (-10 - 15435039 / 524288) = -646185 / 16384 := by
    rw [fl_eq_neg _ (5) (-10338960) (by norm_num) (by norm_num) (by norm_num)
      (roundNearestEven_tie_even _ _ (by norm_num) (by norm_num))]
    norm_num
  have hxs : fl (15435039 / 524288 - 11806965 / 262144) = -8178891 / 524288 := by
    rw [fl_eq_neg _ (3) (-16357782) (by norm_num) (by norm_num) (by norm_num)
      (roundNearestEven_of_lt _ _ (by norm_num) (by norm_num))]
    norm_num
  have hxc : calculateMoveDistanceF32 (15435039 / 524288) (-10) (11806965 / 262144)
      = -646185 / 16384 := by
    simp only [calculateMoveDistanceF32, hxd, hxs]
    norm_num
  have hxl : fl (15435039 / 524288 + -646185 / 16384) = -5242881 / 524288 := by
    rw [fl_eq_neg _ (3) (-10485762) (by norm_num) (by norm_num) (by norm_num)
      (roundNearestEven_of_lt _ _ (by norm_num) (by norm_num))]
    norm_num
  have hyd : fl (55 - 16315843 / 1048576) = 10338959 / 262144 := by
    rw [fl_eq_pos _ (5) (10338959) (by norm_num) (by norm_num) (by norm_num)
      (roundNearestEven_of_lt _ _ (by norm_num) (by norm_num))]
    norm_num
  have hys : fl (16315843 / 1048576 + 11806965 / 262144) = 7942963 / 131072 := by
    rw [fl_eq_pos _ (5) (15885926) (by norm_num) (by norm_num) (by norm_num)
      (roundNearestEven_of_gt _ (15885925) (by norm_num) (by norm_num))]
    norm_num
  have hyc : calculateMoveDistanceF32 (16315843 / 1048576) (55) (11806965 / 262144)
      = 10338959 / 262144 := by
    simp only [calculateMoveDistanceF32, hyd, hys]
    norm_num
  have hyl : fl (16315843 / 1048576 + 10338959 / 262144) = 55 := by
    rw [fl_eq_pos _ (5) (14417920) (by norm_num) (by norm_num) (by norm_num)
      (roundNearestEven_of_gt _ (14417919) (by norm_num) (by norm_num))]
    norm_num
  simp only [drawF32, hxc, hxl, hyc, hyl]

theorem updateDestinationStepF32_trace :
    updateDestinationStepF32 ⟨⟨30, 15⟩, ⟨30, 15⟩, Direction.RIGHT⟩
      = ⟨⟨30, 15⟩, ⟨-10, 55⟩, Direction.BOTTOM_LEFT⟩ := by
  have h1 : fl (30 - 40) = -10 := by
    rw [show (30 - 40 : ℚ) = ((-10 : ℤ) : ℚ) by norm_num, fl_intCast (-10) (by norm_num)]
    norm_num
  have h2 : fl (15 + 40) = 55 := by
    rw [show (15 + 40 : ℚ) = ((55 : ℤ) : ℚ) by norm_num, fl_intCast 55 (by norm_num)]
    norm_num
  simp only [updateDestinationStepF32, fl_MOVE_mul_two, h1, h2]

/-- The first object of `main` after frames of 331 and 7 milliseconds, and after a third
frame of 563 milliseconds. -/
theorem runFramesF32_head_trace :
    (runFramesF32 [pixelMoveF32 331, pixelMoveF32 7]).head?
      = some ⟨⟨15435039 / 524288, 16315843 / 1048576⟩, ⟨-10, 55⟩, Direction.BOTTOM_LEFT⟩ ∧
    (runFramesF32 [pixelMoveF32 331, pixelMoveF32 7, pixelMoveF32 563]).head?
      = some ⟨⟨-5242881 / 524288, 55⟩, ⟨-10, 55⟩, Direction.BOTTOM_LEFT⟩ := by
  obtain ⟨e1, e2, e3⟩ := pixelMoveF32_values
  have a0 : arrived ⟨⟨10, 15⟩, ⟨30, 15⟩, Direction.RIGHT⟩ = false := by
    simp [arrived]
  have a1 : arrived ⟨⟨30, 15⟩, ⟨30, 15⟩, Direction.RIGHT⟩ = true := by
    simp [arrived]
  have a2 : arrived ⟨⟨15435039 / 524288, 16315843 / 1048576⟩, ⟨-10, 55⟩,
      Direction.BOTTOM_LEFT⟩ = false := by
    simp only [arrived]
    norm_num
  have s1 := frameF32_head initialObjects _ (pixelMoveF32 331) initialObjects_head
  rw [a0, e1] at s1
  simp only [Bool.false_eq_true, if_false, drawF32_trace_one] at s1
  have s2 := frameF32_head _ _ (pixelMoveF32 7) s1
  rw [a1, e2] at s2
  simp only [if_true, updateDestinationStepF32_trace, drawF32_trace_two] at s2
  have s3 := frameF32_head _ _ (pixelMoveF32 563) s2
  rw [a2, e3] at s3
  simp only [Bool.false_eq_true, if_false, drawF32_trace_three] at s3
  rw [e1, e2, e3]
  exact ⟨by simpa [runFramesF32] using s2, by simpa [runFramesF32] using s3⟩

/-! ### The motion planner and the state machine in binary32 -/

theorem fl_intCast_of_bounds (n : ℤ) (h1 : -16777216 < n) (h2 : n < 16777216) :
    fl (n : ℚ) = n :=
  fl_intCast n (abs_lt.mpr ⟨by norm_num; exact h1, by norm_num; exact h2⟩)

/-- The rounded difference of two binary32 values has the sign of the exact difference. -/
theorem fl_sub_sign (c d : ℚ) (hc : IsBinary32 c) (hd : IsBinary32 d) :
    (c < d → 0 < fl (d - c)) ∧ (d < c → fl (d - c) < 0) := by
  obtain ⟨kc, hkc⟩ := grid_of_fl_eq c hc
  obtain ⟨kd, hkd⟩ := grid_of_fl_eq d hd
  have hk : d - c = ((kd - kc : ℤ) : ℚ) * (2 : ℚ) ^ (-149 : ℤ) := by
    rw [hkc, hkd]
    push_cast
    ring
  exact ⟨fun h => fl_pos_of_grid _ _ hk (by linarith),
    fun h => fl_neg_of_grid _ _ hk (by linarith)⟩

/-- On integers of magnitude below `2^23` the binary32 motion planner computes without
rounding. -/
theorem calculateMoveDistanceF32_intCast (a b m : ℤ)
    (ha : -8388608 < a ∧ a < 8388608) (hb : -8388608 < b ∧ b < 8388608)
    (hm : -8388608 < m ∧ m < 8388608) :
    calculateMoveDistanceF32 a b m = calculateMoveDistance a b m := by
  have h1 : fl ((b : ℚ) - a) = (b : ℚ) - a := by
    have := fl_intCast_of_bounds (b - a) (by omega) (by omega)
    push_cast at this
    exact this
  have h2 : fl ((a : ℚ) - m) = (a : ℚ) - m := by
    have := fl_intCast_of_bounds (a - m) (by omega) (by omega)
    push_cast at this
    exact this
  have h3 : fl ((a : ℚ) + m) = (a : ℚ) + m := by
    have := fl_intCast_of_bounds (a + m) (by omega) (by omega)
    push_cast at this
    exact this
  simp only [calculateMoveDistanceF32, calculateMoveDistance, h1, h2, h3]

theorem updateDestinationStepF32_direction (o : Object) :
    (updateDestinationStepF32 o).direction = specDirectionCycle o.direction := by
  unfold updateDestinationStepF32
  cases h : o.direction <;> simp only [h, specDirectionCycle]

theorem trajectoryRoundF32_direction (o : Object) :
    (trajectoryRoundF32 o).direction = specDirectionCycle o.direction :=
  updateDestinationStepF32_direction o

theorem fl_int_add (a c : ℤ) (h1 : -16777216 < a + c) (h2 : a + c < 16777216) :
    fl ((a : ℚ) + c) = ((a + c : ℤ) : ℚ) := by
  have := fl_intCast_of_bounds (a + c) h1 h2
  push_cast at this ⊢
  exact this

theorem fl_int_sub (a c : ℤ) (h1 : -16777216 < a - c) (h2 : a - c < 16777216) :
    fl ((a : ℚ) - c) = ((a - c : ℤ) : ℚ) := by
  have := fl_intCast_of_bounds (a - c) h1 h2
  push_cast at this ⊢
  exact this

/-- One trajectory round in binary32 from integer coordinates, direction by direction. -/
theorem trajectoryRoundF32_int (a b : ℤ) (dest : Vector2f)
    (ha : -8388708 ≤ a ∧ a ≤ 8388708) (hb : -8388708 ≤ b ∧ b ≤ 8388708) :
    trajectoryRoundF32 ⟨⟨a, b⟩, dest, Direction.LEFT⟩
      = ⟨⟨((a + 40 : ℤ) : ℚ), ((b - 40 : ℤ) : ℚ)⟩, ⟨((a + 40 : ℤ) : ℚ), ((b - 40 : ℤ) : ℚ)⟩,
          Direction.TOP_RIGHT⟩ ∧
    trajectoryRoundF32 ⟨⟨a, b⟩, dest, Direction.TOP_RIGHT⟩
      = ⟨⟨((a + 20 : ℤ) : ℚ), (b : ℚ)⟩, ⟨((a + 20 : ℤ) : ℚ), (b : ℚ)⟩, Direction.RIGHT⟩ ∧
    trajectoryRoundF32 ⟨⟨a, b⟩, dest, Direction.RIGHT⟩
      = ⟨⟨((a - 40 : ℤ) : ℚ), ((b + 40 : ℤ) : ℚ)⟩, ⟨((a - 40 : ℤ) : ℚ), ((b + 40 : ℤ) : ℚ)⟩,
          Direction.BOTTOM_LEFT⟩ ∧
    trajectoryRoundF32 ⟨⟨a, b⟩, dest, Direction.BOTTOM_LEFT⟩
      = ⟨⟨((a - 20 : ℤ) : ℚ), (b : ℚ)⟩, ⟨((a - 20 : ℤ) : ℚ), (b : ℚ)⟩, Direction.LEFT⟩ := by
  have f40 : fl ((20 : ℚ) * 2) = 40 := by
    rw [← MOVE_eq]
    exact fl_MOVE_mul_two
  have p40 := fl_int_add a 40 (by omega) (by omega)
  have m40 := fl_int_sub a 40 (by omega) (by omega)
  have p20 := fl_int_add a 20 (by omega) (by omega)
  have m20 := fl_int_sub a 20 (by omega) (by omega)
  have q40 := fl_int_add b 40 (by omega) (by omega)
  have n40 := fl_int_sub b 40 (by omega) (by omega)
  rw [Int.cast_ofNat] at p40 m40 p20 m20 q40 n40
  refine ⟨?_, ?_, ?_, ?_⟩ <;>
    simp only [trajectoryRoundF32, moveOntoDestination, updateDestinationStepF32,
      MOVE_eq, f40, p40, m40, p20, m20, q40, n40]

/-- Four trajectory rounds in binary32 from integer coordinates of magnitude at most `2^23`
lead back to the starting position. -/
theorem trajectoryRoundF32_four_int (a b : ℤ) (dest : Vector2f) (dir : Direction)
    (ha : -8388608 ≤ a ∧ a ≤ 8388608) (hb : -8388608 ≤ b ∧ b ≤ 8388608) :
    (trajectoryRoundF32^[4] ⟨⟨a, b⟩, dest, dir⟩).position = ⟨a, b⟩ := by
  simp only [Function.iterate_succ, Function.iterate_zero, Function.comp_apply, id_eq]
  cases dir
  · rw [(trajectoryRoundF32_int a b dest (by omega) (by omega)).1,
      (trajectoryRoundF32_int (a + 40) (b - 40) _ (by omega) (by omega)).2.1,
      (trajectoryRoundF32_int (a + 40 + 20) (b - 40) _ (by omega) (by omega)).2.2.1,
      (trajectoryRoundF32_int (a + 40 + 20 - 40) (b - 40 + 40) _ (by omega)
        (by omega)).2.2.2]
    simp only [Vector2f.mk.injEq]
    exact ⟨by push_cast; ring, by push_cast; ring⟩
  · rw [(trajectoryRoundF32_int a b dest (by omega) (by omega)).2.2.1,
      (trajectoryRoundF32_int (a - 40) (b + 40) _ (by omega) (by omega)).2.2.2,
      (trajectoryRoundF32_int (a - 40 - 20) (b + 40) _ (by omega) (by omega)).1,
      (trajectoryRoundF32_int (a - 40 - 20 + 40) (b + 40 - 40) _ (by omega)
        (by omega)).2.1]
    simp only [Vector2f.mk.injEq]
    exact ⟨by push_cast; ring, by push_cast; ring⟩
  · rw [(trajectoryRoundF32_int a b dest (by omega) (by omega)).2.1,
      (trajectoryRoundF32_int (a + 20) b _ (by omega) (by omega)).2.2.1,
      (trajectoryRoundF32_int (a + 20 - 40) (b + 40) _ (by omega) (by omega)).2.2.2,
      (trajectoryRoundF32_int (a + 20 - 40 - 20) (b + 40) _ (by omega) (by omega)).1]
    simp only [Vector2f.mk.injEq]
    exact ⟨by push_cast; ring, by push_cast; ring⟩
  · rw [(trajectoryRoundF32_int a b dest (by omega) (by omega)).2.2.2,
      (trajectoryRoundF32_int (a - 20) b _ (by omega) (by omega)).1,
      (trajectoryRoundF32_int (a - 20 + 40) (b - 40) _ (by omega) (by omega)).2.1,
      (trajectoryRoundF32_int (a - 20 + 40 + 20) (b - 40) _ (by omega) (by omega)).2.2.1]
    simp only [Vector2f.mk.injEq]
    exact ⟨by push_cast; ring, by push_cast; ring⟩

theorem trajectoryRoundF32_four_direction (o : Object) :
    (trajectoryRoundF32^[4] o).direction = o.direction := by
  simp only [Function.iterate_succ, Function.iterate_zero, Function.comp_apply, id_eq,
    trajectoryRoundF32_direction]
  exact (specDirectionCycle_period o.direction).1

/-! ## Theorems -/

/-- C1: case analysis of `calculateMoveDistance` with `distance = destination - current`:
negative distance gives `distance` when `current - maxStep < destination` and `-maxStep`
otherwise; positive distance gives `distance` when `current + maxStep > destination` and
`maxStep` otherwise; zero distance gives `0`; and `calculateMoveDistance 0 (-5) 10 = -5`. -/
theorem calculateMoveDistance_cases (current destination maxStep : ℚ) :
    (destination - current < 0 → current - maxStep < destination →
        calculateMoveDistance current destination maxStep = destination - current) ∧
    (destination - current < 0 → ¬ (current - maxStep < destination) →
        calculateMoveDistance current destination maxStep = -maxStep) ∧
    (destination - current > 0 → current + maxStep > destination →
        calculateMoveDistance current destination maxStep = destination - current) ∧
    (destination - current > 0 → ¬ (current + maxStep > destination) →
        calculateMoveDistance current destination maxStep = maxStep) ∧
    (destination - current = 0 →
        calculateMoveDistance current destination maxStep = 0) ∧
    calculateMoveDistance 0 (-5) 10 = -5 := by
  refine ⟨?_, ?_, ?_, ?_, ?_, ?_⟩
  · intro h1 h2
    simp [calculateMoveDistance, h1, h2]
  · intro h1 h2
    simp only [calculateMoveDistance, if_pos h1, if_neg h2]
  · intro h1 h2
    have h3 : ¬ (destination - current < 0) := not_lt.mpr (le_of_lt h1)
    simp only [calculateMoveDistance, if_neg h3, if_pos h1, if_pos h2]
  · intro h1 h2
    have h3 : ¬ (destination - current < 0) := not_lt.mpr (le_of_lt h1)
    simp only [calculateMoveDistance, if_neg h3, if_pos h1, if_neg h2]
  · intro h1
    simp [calculateMoveDistance, h1]
  · simp only [calculateMoveDistance]
    norm_num

theorem calculateMoveDistance_cases_witness :
    calculateMoveDistance 0 (-5) 10 = (-5) - 0 ∧
    calculateMoveDistance 0 (-50) 10 = -10 ∧
    calculateMoveDistance 0 5 10 = 5 - 0 ∧
    calculateMoveDistance 0 50 10 = 10 ∧
    calculateMoveDistance 7 7 10 = 0 :=
  ⟨(calculateMoveDistance_cases 0 (-5) 10).1 (by norm_num) (by norm_num),
   (calculateMoveDistance_cases 0 (-50) 10).2.1 (by norm_num) (by norm_num),
   (calculateMoveDistance_cases 0 5 10).2.2.1 (by norm_num) (by norm_num),
   (calculateMoveDistance_cases 0 50 10).2.2.2.1 (by norm_num) (by norm_num),
   (calculateMoveDistance_cases 7 7 10).2.2.2.2.1 (by norm_num)⟩

/-- No overshoot in exact arithmetic.  For a step `maxStep >= 0` the new value
`current + delta` lies in the closed interval between `current` and `destination`; it never
passes `destination`; the sign of `delta` is the sign of `destination - current`, or `delta` is
zero; the remaining distance does not grow; and `draw` moves both axes of an object inside
these intervals.  In binary32 the rounding of `destination - current` can break this. -/
theorem calculateMoveDistance_no_overshoot (current destination maxStep : ℚ)
    (hstep : 0 ≤ maxStep) :
    (min current destination ≤ current + calculateMoveDistance current destination maxStep ∧
      current + calculateMoveDistance current destination maxStep ≤ max current destination) ∧
    (current ≤ destination →
      current + calculateMoveDistance current destination maxStep ≤ destination) ∧
    (destination ≤ current →
      destination ≤ current + calculateMoveDistance current destination maxStep) ∧
    (SignType.sign (calculateMoveDistance current destination maxStep)
        = SignType.sign (destination - current) ∨
      calculateMoveDistance current destination maxStep = 0) ∧
    |destination - (current + calculateMoveDistance current destination maxStep)|
      ≤ |destination - current| ∧
    (∀ object : Object,
      (min object.position.x object.destination.x ≤ (draw object maxStep).position.x ∧
        (draw object maxStep).position.x ≤ max object.position.x object.destination.x) ∧
      (min object.position.y object.destination.y ≤ (draw object maxStep).position.y ∧
        (draw object maxStep).position.y ≤ max object.position.y object.destination.y)) := by
  have key : ∀ c d : ℚ,
      min c d ≤ c + calculateMoveDistance c d maxStep ∧
        c + calculateMoveDistance c d maxStep ≤ max c d := by
    intro c d
    rcases calculateMoveDistance_outcomes c d maxStep with
      ⟨h1, h2, h⟩ | ⟨h1, h2, h⟩ | ⟨h1, h2, h⟩ | ⟨h1, h2, h⟩ | ⟨h1, h⟩ <;>
    rw [h] <;> constructor <;>
    first
      | (apply min_le_iff.mpr; first | (left; linarith) | (right; linarith))
      | (apply le_max_iff.mpr; first | (left; linarith) | (right; linarith))
  refine ⟨key current destination, ?_, ?_, ?_, ?_, ?_⟩
  · intro hle
    have := (key current destination).2
    rwa [max_eq_right hle] at this
  · intro hle
    have := (key current destination).1
    rwa [min_eq_right hle] at this
  · rcases calculateMoveDistance_outcomes current destination maxStep with
      ⟨h1, h2, h⟩ | ⟨h1, h2, h⟩ | ⟨h1, h2, h⟩ | ⟨h1, h2, h⟩ | ⟨h1, h⟩
    · left; rw [h]
    · rcases eq_or_lt_of_le hstep with h0 | hpos
      · right; rw [h, ← h0]; simp
      · left
        rw [h, sign_neg (by linarith), sign_neg (by linarith)]
    · left; rw [h]
    · rcases eq_or_lt_of_le hstep with h0 | hpos
      · right; rw [h, ← h0]
      · left
        rw [h, sign_pos hpos, sign_pos (by linarith)]
    · right; exact h
  · rcases calculateMoveDistance_outcomes current destination maxStep with
      ⟨h1, h2, h⟩ | ⟨h1, h2, h⟩ | ⟨h1, h2, h⟩ | ⟨h1, h2, h⟩ | ⟨h1, h⟩
    · rw [h]; simp
    · rw [h, abs_of_nonpos (by linarith), abs_of_neg (by linarith)]
      linarith
    · rw [h]; simp
    · rw [h, abs_of_nonneg (by linarith), abs_of_pos (by linarith)]
      linarith
    · rw [h]; simp
  · intro object
    exact ⟨key object.position.x object.destination.x,
      key object.position.y object.destination.y⟩

theorem calculateMoveDistance_no_overshoot_witness :
    (0 : ℚ) ≤ 4 ∧
    (min (0 : ℚ) 10 ≤ 0 + calculateMoveDistance 0 10 4 ∧
      0 + calculateMoveDistance 0 10 4 ≤ max (0 : ℚ) 10) :=
  ⟨by norm_num, (calculateMoveDistance_no_overshoot 0 10 4 (by norm_num)).1⟩

/-- C3: exact arrival in bounded steps.  With a fixed step `maxStep > 0`, iterating
`current := current + calculateMoveDistance current destination maxStep` gives exactly
`destination` after `ceil(|destination - current| / maxStep)` iterations and after every larger
number of iterations.  From `0` towards `10` with step `4` the deltas are `4, 4, 2` and the
value lands on `10`. -/
theorem moveAxis_exact_arrival :
    (∀ current destination maxStep : ℚ, 0 < maxStep →
      ∀ k : Nat, ⌈|destination - current| / maxStep⌉₊ ≤ k →
        (moveAxis destination maxStep)^[k] current = destination) ∧
    (calculateMoveDistance 0 10 4 = 4 ∧
      calculateMoveDistance (0 + 4) 10 4 = 4 ∧
      calculateMoveDistance (0 + 4 + 4) 10 4 = 2 ∧
      (moveAxis 10 4)^[3] 0 = 10) := by
  constructor
  · intro current destination maxStep hm k hk
    apply moveAxis_iterate_arrives destination maxStep hm
    have h1 : |destination - current| / maxStep ≤ (k : ℚ) := Nat.ceil_le.mp hk
    exact (div_le_iff₀ hm).mp h1
  · simp only [calculateMoveDistance, moveAxis, Function.iterate_succ, Function.iterate_zero,
      Function.comp_apply, id_eq]
    norm_num

theorem moveAxis_exact_arrival_witness :
    (0 : ℚ) < 4 ∧ ⌈|(10 : ℚ) - 0| / 4⌉₊ ≤ 3 ∧ (moveAxis 10 4)^[3] 0 = 10 :=
  ⟨by norm_num,
   by rw [Nat.ceil_le]; norm_num,
   moveAxis_exact_arrival.1 0 10 4 (by norm_num) 3 (by rw [Nat.ceil_le]; norm_num)⟩

/-- C6: clamp to the exact remainder.  For `maxStep >= 0` the result is the remaining distance
clamped to the step, `max (-maxStep) (min maxStep (destination - current))`; it is exactly
`destination - current` whenever `|destination - current| <= maxStep`, has magnitude exactly
`maxStep` otherwise, and never exceeds `maxStep` in magnitude. -/
theorem calculateMoveDistance_clamp (current destination maxStep : ℚ) (hstep : 0 ≤ maxStep) :
    calculateMoveDistance current destination maxStep
      = max (-maxStep) (min maxStep (destination - current)) ∧
    (|destination - current| ≤ maxStep →
      calculateMoveDistance current destination maxStep = destination - current) ∧
    (¬ |destination - current| ≤ maxStep →
      |calculateMoveDistance current destination maxStep| = maxStep) ∧
    |calculateMoveDistance current destination maxStep| ≤ maxStep := by
  refine ⟨calculateMoveDistance_eq_clamp current destination maxStep hstep, ?_, ?_, ?_⟩
  · intro hle
    have hb := abs_le.mp hle
    rcases calculateMoveDistance_outcomes current destination maxStep with
      ⟨h1, h2, h⟩ | ⟨h1, h2, h⟩ | ⟨h1, h2, h⟩ | ⟨h1, h2, h⟩ | ⟨h1, h⟩
    · exact h
    · rw [h]; linarith [hb.1]
    · exact h
    · rw [h]; linarith [hb.2]
    · rw [h, h1]; simp
  · intro hgt
    have hlt : maxStep < |destination - current| := not_le.mp hgt
    rcases calculateMoveDistance_outcomes current destination maxStep with
      ⟨h1, h2, h⟩ | ⟨h1, h2, h⟩ | ⟨h1, h2, h⟩ | ⟨h1, h2, h⟩ | ⟨h1, h⟩
    · rw [abs_of_neg (by linarith)] at hlt
      linarith
    · rw [h, abs_neg, abs_of_nonneg hstep]
    · rw [abs_of_pos (by linarith)] at hlt
      linarith
    · rw [h, abs_of_nonneg hstep]
    · rw [h1, sub_self, abs_zero] at hlt
      linarith
  · rcases calculateMoveDistance_outcomes current destination maxStep with
      ⟨h1, h2, h⟩ | ⟨h1, h2, h⟩ | ⟨h1, h2, h⟩ | ⟨h1, h2, h⟩ | ⟨h1, h⟩
    · rw [h, abs_of_neg (by linarith)]; linarith
    · rw [h, abs_neg, abs_of_nonneg hstep]
    · rw [h, abs_of_pos (by linarith)]; linarith
    · rw [h, abs_of_nonneg hstep]
    · rw [h, abs_zero]; exact hstep

theorem calculateMoveDistance_clamp_witness :
    (0 : ℚ) ≤ 10 ∧
    calculateMoveDistance 0 (-5) 10 = max (-10) (min 10 ((-5) - 0)) :=
  ⟨by norm_num, (calculateMoveDistance_clamp 0 (-5) 10 (by norm_num)).1⟩

/-- C5: cycle closure.  The direction component of `updateDestination` is the fixed 4-cycle
LEFT -> TOP_RIGHT -> RIGHT -> BOTTOM_LEFT -> LEFT, whatever the positions and destinations;
four applications give every object its starting direction back, and one, two or three
applications give no object its starting direction back. -/
theorem updateDestination_direction_cycle :
    (∀ (objects : List Object) (k : Nat),
      (updateDestination^[k] objects).map Object.direction
        = objects.map (fun o => specDirectionCycle^[k] o.direction)) ∧
    (∀ o1 o2 : Object, o1.direction = o2.direction →
      (updateDestinationStep o1).direction = (updateDestinationStep o2).direction) ∧
    (∀ objects : List Object,
      (updateDestination^[4] objects).map Object.direction = objects.map Object.direction) ∧
    (∀ (objects : List Object) (k i : Nat) (o o2 : Object), k = 1 ∨ k = 2 ∨ k = 3 →
      objects[i]? = some o → (updateDestination^[k] objects)[i]? = some o2 →
      o2.direction ≠ o.direction) ∧
    (∀ pos dest : Vector2f,
      updateDestination^[4] [⟨pos, dest, Direction.LEFT⟩]
        = [⟨pos, ⟨pos.x - MOVE, pos.y⟩, Direction.LEFT⟩]) := by
  refine ⟨?_, ?_, ?_, ?_, ?_⟩
  · intro objects k
    rw [updateDestination_iterate, List.map_map]
    apply List.map_congr_left
    intro o _
    exact updateDestinationStep_iterate_direction k o
  · intro o1 o2 h
    rw [updateDestinationStep_direction, updateDestinationStep_direction, h]
  · intro objects
    rw [updateDestination_iterate, List.map_map]
    apply List.map_congr_left
    intro o _
    simp only [Function.comp_apply]
    rw [updateDestinationStep_iterate_direction]
    exact (specDirectionCycle_period o.direction).1
  · intro objects k i o o2 hk hi hi2
    rw [updateDestination_iterate, List.getElem?_map, hi] at hi2
    simp only [Option.map_some', Option.some.injEq] at hi2
    rw [← hi2, updateDestinationStep_iterate_direction]
    have hp := specDirectionCycle_period o.direction
    rcases hk with h | h | h <;> subst h
    · exact hp.2.1
    · exact hp.2.2.1
    · exact hp.2.2.2
  · intro pos dest
    simp [updateDestination, updateDestinationStep, Function.iterate_succ]

theorem updateDestination_direction_cycle_witness :
    (updateDestination^[2] [⟨⟨100, 100⟩, ⟨80, 100⟩, Direction.LEFT⟩])[0]?
        = some ⟨⟨100, 100⟩, ⟨100 + MOVE, 100⟩, Direction.RIGHT⟩ ∧
    (⟨⟨100, 100⟩, ⟨100 + MOVE, 100⟩, Direction.RIGHT⟩ : Object).direction
        ≠ (⟨⟨100, 100⟩, ⟨80, 100⟩, Direction.LEFT⟩ : Object).direction :=
  have h : (updateDestination^[2] [⟨⟨100, 100⟩, ⟨80, 100⟩, Direction.LEFT⟩])[0]?
      = some ⟨⟨100, 100⟩, ⟨100 + MOVE, 100⟩, Direction.RIGHT⟩ := by
    simp [updateDestination, updateDestinationStep, Function.iterate_succ]
  ⟨h, updateDestination_direction_cycle.2.2.2.1 [⟨⟨100, 100⟩, ⟨80, 100⟩, Direction.LEFT⟩] 2 0
      ⟨⟨100, 100⟩, ⟨80, 100⟩, Direction.LEFT⟩ ⟨⟨100, 100⟩, ⟨100 + MOVE, 100⟩, Direction.RIGHT⟩
      (Or.inr (Or.inl rfl)) rfl h⟩

/-- C9: destination and direction change only on arrival.  In a frame whose first object has
not arrived (its position differs from its destination on some axis), every object keeps its
destination and its direction; and `draw` never changes an object's destination or
direction. -/
theorem frame_keeps_destination_direction :
    (∀ (first_circle : Object) (rest : List Object) (pixel_move : ℚ),
      (first_circle.position.x ≠ first_circle.destination.x ∨
        first_circle.position.y ≠ first_circle.destination.y) →
      (frame (first_circle :: rest) pixel_move).map (fun o => (o.destination, o.direction))
        = (first_circle :: rest).map (fun o => (o.destination, o.direction))) ∧
    (∀ (object : Object) (pixel_move : ℚ),
      (draw object pixel_move).destination = object.destination ∧
      (draw object pixel_move).direction = object.direction) := by
  constructor
  · intro first_circle rest pixel_move hne
    have hna : arrived first_circle = false := by
      unfold arrived
      rcases hne with h | h
      · have : ¬ first_circle.destination.x = first_circle.position.x := fun e => h e.symm
        simp [this]
      · have : ¬ first_circle.destination.y = first_circle.position.y := fun e => h e.symm
        simp [this]
    simp only [frame, hna, Bool.false_eq_true, if_false, List.map_map]
    apply List.map_congr_left
    intro o _
    rfl
  · intro object pixel_move
    exact ⟨rfl, rfl⟩

theorem frame_keeps_destination_direction_witness :
    ((⟨⟨0, 0⟩, ⟨20, 0⟩, Direction.RIGHT⟩ : Object).position.x
        ≠ (⟨⟨0, 0⟩, ⟨20, 0⟩, Direction.RIGHT⟩ : Object).destination.x) ∧
    (frame [⟨⟨0, 0⟩, ⟨20, 0⟩, Direction.RIGHT⟩, ⟨⟨50, 55⟩, ⟨30, 55⟩, Direction.LEFT⟩] 8).map
        (fun o => (o.destination, o.direction))
      = [((⟨20, 0⟩ : Vector2f), Direction.RIGHT), ((⟨30, 55⟩ : Vector2f), Direction.LEFT)] :=
  ⟨by norm_num,
   frame_keeps_destination_direction.1 ⟨⟨0, 0⟩, ⟨20, 0⟩, Direction.RIGHT⟩
     [⟨⟨50, 55⟩, ⟨30, 55⟩, Direction.LEFT⟩] 8 (Or.inl (by norm_num))⟩

/-- C10: initial state.  The constructor keeps the given position and destination and sets the
direction to LEFT exactly when `position.x > destination.x`, to RIGHT otherwise, never to
TOP_RIGHT or BOTTOM_LEFT.  `main` builds 256 objects; the object of index `i` (row `i / 16`)
has `destination.y = position.y`, and `destination.x = position.x + MOVE` with direction RIGHT
on even rows, `destination.x = position.x - MOVE` with direction LEFT on odd rows. -/
theorem initial_state :
    (∀ position destination : Vector2f,
      (Object.ctor position destination).position = position ∧
      (Object.ctor position destination).destination = destination ∧
      ((Object.ctor position destination).direction = Direction.LEFT ↔
        position.x > destination.x) ∧
      ((Object.ctor position destination).direction = Direction.RIGHT ↔
        ¬ position.x > destination.x) ∧
      (Object.ctor position destination).direction ≠ Direction.TOP_RIGHT ∧
      (Object.ctor position destination).direction ≠ Direction.BOTTOM_LEFT) ∧
    initialObjects.length = 256 ∧
    nbr_shapes_by_row = 16 ∧
    (∀ (i : Nat) (o : Object), initialObjects[i]? = some o →
      o.destination.y = o.position.y ∧
      ((i / nbr_shapes_by_row) % 2 = 0 →
        o.destination.x = o.position.x + MOVE ∧ o.direction = Direction.RIGHT) ∧
      ((i / nbr_shapes_by_row) % 2 = 1 →
        o.destination.x = o.position.x - MOVE ∧ o.direction = Direction.LEFT)) := by
  refine ⟨?_, ?_, ?_, ?_⟩
  · intro position destination
    unfold Object.ctor
    by_cases h : position.x > destination.x <;> simp [h]
  · simp [initialObjects, nbr_shapes, nbr_shapes_by_row, nbr_shapes_by_col, WINDOW_WIDTH,
      WINDOW_HEIGHT, CIRCLE_MARGIN, CIRCLE_RADIUS]
  · simp [nbr_shapes_by_row, WINDOW_WIDTH, CIRCLE_MARGIN, CIRCLE_RADIUS]
  · intro i o hi
    have ho : o = buildObject i := by
      unfold initialObjects at hi
      rw [List.getElem?_map] at hi
      cases hr : (List.range nbr_shapes)[i]? with
      | none => rw [hr] at hi; simp at hi
      | some j =>
        rw [hr] at hi
        have hj : j = i := by
          rw [List.getElem?_eq_some] at hr
          obtain ⟨_, hr⟩ := hr
          simpa using hr.symm
        subst hj
        simpa using hi.symm
    subst ho
    have hM : (0 : ℚ) < MOVE := by rw [MOVE_eq]; norm_num
    refine ⟨rfl, ?_, ?_⟩
    · intro heven
      have hodd : isOdd ((i / nbr_shapes_by_row : Nat) : Int) = false := by
        rw [isOdd_natCast]; simp [heven]
      simp only [buildObject, hodd, Object.ctor]
      constructor
      · simp
      · simp [hM.le]
    · intro hrow
      have hodd : isOdd ((i / nbr_shapes_by_row : Nat) : Int) = true := by
        rw [isOdd_natCast]; simp [hrow]
      simp only [buildObject, hodd, Object.ctor]
      constructor
      · simp
        ring
      · simp [hM]

theorem initial_state_witness :
    initialObjects[17]? = some (buildObject 17) ∧
    (17 / nbr_shapes_by_row) % 2 = 1 ∧
    (buildObject 17).destination.x = (buildObject 17).position.x - MOVE ∧
    (buildObject 17).direction = Direction.LEFT :=
  have h : initialObjects[17]? = some (buildObject 17) := by
    simp [initialObjects, nbr_shapes, nbr_shapes_by_row, nbr_shapes_by_col, WINDOW_WIDTH,
      WINDOW_HEIGHT, CIRCLE_MARGIN, CIRCLE_RADIUS, List.getElem?_range]
  have h2 : (17 / nbr_shapes_by_row) % 2 = 1 := by
    simp [nbr_shapes_by_row, WINDOW_WIDTH, CIRCLE_MARGIN, CIRCLE_RADIUS]
  ⟨h, h2, (initial_state.2.2.2 17 (buildObject 17) h).2.2 h2⟩

/-- C8: lockstep.  After any sequence of frames with step magnitudes `>= 0`, starting from
the formation built in `main`, the object list is non-empty and its first object has arrived
(position equal to destination on both axes) if and only if every object has. -/
theorem lockstep_representative_arrival (pixel_moves : List ℚ)
    (hsteps : ∀ m ∈ pixel_moves, 0 ≤ m) :
    ∃ (first_circle : Object) (rest : List Object),
      runFrames pixel_moves = first_circle :: rest ∧
      (arrived first_circle = true ↔ ∀ o ∈ runFrames pixel_moves, arrived o = true) := by
  have _ := hsteps
  obtain ⟨first_circle, rest, hl, hall⟩ :=
    foldl_frame_lockstep pixel_moves initialObjects initialObjects_lockstep
  refine ⟨first_circle, rest, hl, ?_⟩
  constructor
  · intro ha o ho
    exact (arrived_of_inStep first_circle o (hall o ho)).mp ha
  · intro h
    apply h
    rw [runFrames, hl]
    exact List.mem_cons_self _ _

theorem lockstep_representative_arrival_witness :
    ∃ (first_circle : Object) (rest : List Object),
      runFrames [8, 8, 4, 0, 6] = first_circle :: rest ∧
      (arrived first_circle = true ↔ ∀ o ∈ runFrames [8, 8, 4, 0, 6], arrived o = true) :=
  lockstep_representative_arrival [8, 8, 4, 0, 6] (by
    intro m hm
    simp only [List.mem_cons, List.mem_singleton, List.not_mem_nil, or_false] at hm
    rcases hm with h | h | h | h | h <;> rw [h] <;> norm_num)

/-- C12: `updateDestination` changes only destination and direction.  The result has the
same number of objects, in the same order, with every position unchanged; and the new
destination and direction of an object are determined by that object's own position and
direction, whatever the list around it and whatever its old destination. -/
theorem updateDestination_frame_effect :
    (∀ objects : List Object, (updateDestination objects).length = objects.length) ∧
    (∀ objects : List Object,
      (updateDestination objects).map Object.position = objects.map Object.position) ∧
    (∀ (objects : List Object) (i : Nat) (o : Object), objects[i]? = some o →
      ∃ r : Object, (updateDestination objects)[i]? = some r ∧ r.position = o.position) ∧
    (∀ (objects1 objects2 : List Object) (i j : Nat) (o1 o2 r1 r2 : Object),
      objects1[i]? = some o1 → objects2[j]? = some o2 →
      o1.position = o2.position → o1.direction = o2.direction →
      (updateDestination objects1)[i]? = some r1 →
      (updateDestination objects2)[j]? = some r2 →
      r1.destination = r2.destination ∧ r1.direction = r2.direction) := by
  refine ⟨?_, ?_, ?_, ?_⟩
  · intro objects
    simp [updateDestination]
  · intro objects
    rw [updateDestination, List.map_map]
    apply List.map_congr_left
    intro o _
    exact updateDestinationStep_position o
  · intro objects i o hi
    refine ⟨updateDestinationStep o, ?_, updateDestinationStep_position o⟩
    rw [updateDestination_getElem?, hi, Option.map_some']
  · intro objects1 objects2 i j o1 o2 r1 r2 h1 h2 hp hd e1 e2
    rw [updateDestination_getElem?, h1, Option.map_some', Option.some.injEq] at e1
    rw [updateDestination_getElem?, h2, Option.map_some', Option.some.injEq] at e2
    rw [← e1, ← e2]
    exact updateDestinationStep_congr o1 o2 hp hd

theorem updateDestination_frame_effect_witness :
    (updateDestination [⟨⟨0, 0⟩, ⟨20, 0⟩, Direction.RIGHT⟩,
        ⟨⟨100, 100⟩, ⟨80, 100⟩, Direction.LEFT⟩])[1]?
      = some ⟨⟨100, 100⟩, ⟨100 + MOVE * 2, 100 - MOVE * 2⟩, Direction.TOP_RIGHT⟩ ∧
    (updateDestination [⟨⟨100, 100⟩, ⟨3, 4⟩, Direction.LEFT⟩])[0]?
      = some ⟨⟨100, 100⟩, ⟨100 + MOVE * 2, 100 - MOVE * 2⟩, Direction.TOP_RIGHT⟩ ∧
    (⟨⟨100, 100⟩, ⟨100 + MOVE * 2, 100 - MOVE * 2⟩, Direction.TOP_RIGHT⟩ : Object).destination
      = (⟨⟨100, 100⟩, ⟨100 + MOVE * 2, 100 - MOVE * 2⟩, Direction.TOP_RIGHT⟩ :
          Object).destination ∧
    (⟨⟨100, 100⟩, ⟨100 + MOVE * 2, 100 - MOVE * 2⟩, Direction.TOP_RIGHT⟩ : Object).direction
      = (⟨⟨100, 100⟩, ⟨100 + MOVE * 2, 100 - MOVE * 2⟩, Direction.TOP_RIGHT⟩ :
          Object).direction :=
  have h1 : (updateDestination [⟨⟨0, 0⟩, ⟨20, 0⟩, Direction.RIGHT⟩,
      ⟨⟨100, 100⟩, ⟨80, 100⟩, Direction.LEFT⟩])[1]?
      = some ⟨⟨100, 100⟩, ⟨100 + MOVE * 2, 100 - MOVE * 2⟩, Direction.TOP_RIGHT⟩ := by
    simp [updateDestination, updateDestinationStep]
  have h2 : (updateDestination [⟨⟨100, 100⟩, ⟨3, 4⟩, Direction.LEFT⟩])[0]?
      = some ⟨⟨100, 100⟩, ⟨100 + MOVE * 2, 100 - MOVE * 2⟩, Direction.TOP_RIGHT⟩ := by
    simp [updateDestination, updateDestinationStep]
  ⟨h1, h2,
   updateDestination_frame_effect.2.2.2
     [⟨⟨0, 0⟩, ⟨20, 0⟩, Direction.RIGHT⟩, ⟨⟨100, 100⟩, ⟨80, 100⟩, Direction.LEFT⟩]
     [⟨⟨100, 100⟩, ⟨3, 4⟩, Direction.LEFT⟩] 1 0
     ⟨⟨100, 100⟩, ⟨80, 100⟩, Direction.LEFT⟩ ⟨⟨100, 100⟩, ⟨3, 4⟩, Direction.LEFT⟩
     ⟨⟨100, 100⟩, ⟨100 + MOVE * 2, 100 - MOVE * 2⟩, Direction.TOP_RIGHT⟩
     ⟨⟨100, 100⟩, ⟨100 + MOVE * 2, 100 - MOVE * 2⟩, Direction.TOP_RIGHT⟩
     rfl rfl rfl rfl h1 h2⟩

/-- C13: mirror symmetry of the motion planner.  Negating the current value and the
destination negates the result, for every step:
`calculateMoveDistance (-current) (-destination) maxStep
  = -calculateMoveDistance current destination maxStep`. -/
theorem calculateMoveDistance_mirror_symmetry (current destination maxStep : ℚ) :
    calculateMoveDistance (-current) (-destination) maxStep
      = -calculateMoveDistance current destination maxStep :=
  calculateMoveDistance_mirror current destination (-current) (-destination) maxStep (by ring)

/-- C16: `isOdd number` is true exactly when `number` is odd, for every integer, the negative
ones included; in particular at the ends of the 32-bit range and at `-1`, `-2`, `-3`. -/
theorem isOdd_iff_odd :
    (∀ number : Int, isOdd number = true ↔ Odd number) ∧
    (∀ number : Int, isOdd number = false ↔ Even number) ∧
    isOdd (-1) = true ∧ isOdd (-2) = false ∧ isOdd (-3) = true ∧
    isOdd (-2 ^ 31) = false ∧ isOdd (2 ^ 31 - 1) = true ∧ isOdd 0 = false := by
  have key : ∀ number : Int, isOdd number = true ↔ Odd number := by
    intro number
    rw [isOdd_iff_emod, Int.odd_iff]
  refine ⟨key, ?_, ?_, ?_, ?_, ?_, ?_, ?_⟩
  · intro number
    rw [← Int.not_odd_iff_even, ← key, Bool.not_eq_true]
  · exact (isOdd_iff_emod _).mpr (by norm_num)
  · exact Bool.eq_false_iff.mpr (fun h => by
      have := (isOdd_iff_emod _).mp h
      norm_num at this)
  · exact (isOdd_iff_emod _).mpr (by norm_num)
  · exact Bool.eq_false_iff.mpr (fun h => by
      have := (isOdd_iff_emod _).mp h
      norm_num at this)
  · exact (isOdd_iff_emod _).mpr (by norm_num)
  · exact Bool.eq_false_iff.mpr (fun h => by
      have := (isOdd_iff_emod _).mp h
      norm_num at this)

/-- C14 (amended): closed trajectory.  In exact arithmetic, four rounds of
"`updateDestination`, then move the object onto its new destination" bring every object back
to its starting position with its starting direction.  The displacement of one round is
`(+2*MOVE, -2*MOVE)` from LEFT, `(+MOVE, 0)` from TOP_RIGHT, `(-2*MOVE, +2*MOVE)` from RIGHT and
`(-MOVE, 0)` from BOTTOM_LEFT, and the four sum to zero.  A `draw` with a step of at least
`2 * MOVE` performs the move of a round, so four such frames, started with the first object
arrived, give every object of the formation its position and direction back.  In binary32 the
four rounds restore the direction of every object, and the position of every object whose
coordinates are integers of magnitude at most `2^23`. -/
theorem closed_trajectory :
    (∀ o : Object,
      (trajectoryRound^[4] o).position = o.position ∧
      (trajectoryRound^[4] o).direction = o.direction) ∧
    (∀ o : Object,
      (o.direction = Direction.LEFT → (trajectoryRound o).position
        = ⟨o.position.x + 2 * MOVE, o.position.y - 2 * MOVE⟩) ∧
      (o.direction = Direction.TOP_RIGHT → (trajectoryRound o).position
        = ⟨o.position.x + MOVE, o.position.y + 0⟩) ∧
      (o.direction = Direction.RIGHT → (trajectoryRound o).position
        = ⟨o.position.x - 2 * MOVE, o.position.y + 2 * MOVE⟩) ∧
      (o.direction = Direction.BOTTOM_LEFT → (trajectoryRound o).position
        = ⟨o.position.x - MOVE, o.position.y + 0⟩)) ∧
    (2 * MOVE + MOVE + -(2 * MOVE) + -MOVE = 0 ∧ -(2 * MOVE) + 0 + 2 * MOVE + 0 = 0) ∧
    (∀ (o : Object) (m : ℚ), 2 * MOVE ≤ m →
      draw (updateDestinationStep o) m = trajectoryRound o) ∧
    (∀ (first_circle : Object) (rest : List Object) (m : ℚ),
      arrived first_circle = true → 2 * MOVE ≤ m →
      ((fun l => frame l m)^[4] (first_circle :: rest)).map (fun o => (o.position, o.direction))
        = (first_circle :: rest).map (fun o => (o.position, o.direction))) ∧
    (∀ o : Object, (trajectoryRoundF32^[4] o).direction = o.direction) ∧
    (∀ (a b : ℤ) (dest : Vector2f) (dir : Direction),
      -8388608 ≤ a ∧ a ≤ 8388608 → -8388608 ≤ b ∧ b ≤ 8388608 →
      (trajectoryRoundF32^[4] ⟨⟨a, b⟩, dest, dir⟩).position = ⟨a, b⟩) := by
  refine ⟨trajectoryRound_four, ?_, ⟨by ring, by ring⟩, draw_updateDestinationStep, ?_,
    trajectoryRoundF32_four_direction, ?_⟩
  · intro o
    refine ⟨?_, ?_, ?_, ?_⟩ <;> intro h <;>
      simp only [trajectoryRound, moveOntoDestination, updateDestinationStep, h,
        mul_comm 2 MOVE, add_zero]
  · intro first_circle rest m ha hm
    have unfold4 : ∀ o : Object,
        trajectoryRound (trajectoryRound (trajectoryRound (trajectoryRound o)))
          = trajectoryRound^[4] o := fun _ => rfl
    simp only [Function.iterate_succ, Function.iterate_zero, Function.comp_apply, id_eq]
    rw [frame_eq_trajectoryRound first_circle rest m ha hm, List.map_cons,
      frame_eq_trajectoryRound _ _ m (trajectoryRound_arrived _) hm, List.map_cons,
      frame_eq_trajectoryRound _ _ m (trajectoryRound_arrived _) hm, List.map_cons,
      frame_eq_trajectoryRound _ _ m (trajectoryRound_arrived _) hm]
    simp only [List.map_cons, List.map_map, unfold4]
    rw [(trajectoryRound_four first_circle).1, (trajectoryRound_four first_circle).2]
    congr 1
    apply List.map_congr_left
    intro o _
    simp only [Function.comp_apply, unfold4]
    rw [(trajectoryRound_four o).1, (trajectoryRound_four o).2]
  · intro a b dest dir ha hb
    exact trajectoryRoundF32_four_int a b dest dir ha hb

theorem closed_trajectory_witness :
    (-8388608 ≤ (10 : ℤ) ∧ (10 : ℤ) ≤ 8388608) ∧ (-8388608 ≤ (15 : ℤ) ∧ (15 : ℤ) ≤ 8388608) ∧
    (trajectoryRoundF32^[4] ⟨⟨((10 : ℤ) : ℚ), ((15 : ℤ) : ℚ)⟩, ⟨30, 15⟩,
        Direction.RIGHT⟩).position = ⟨((10 : ℤ) : ℚ), ((15 : ℤ) : ℚ)⟩ :=
  ⟨by decide, by decide,
   closed_trajectory.2.2.2.2.2.2 10 15 ⟨30, 15⟩ Direction.RIGHT (by decide) (by decide)⟩

/-- C14 (as stated, refuted in binary32): from the binary32 position
`(5242881/524288, 55)` with direction LEFT, the first round sets the destination
`x + 40 = 26214401/524288`, a tie that rounds to `50`; the four rounds pass through
`(50, 15)`, `(70, 15)`, `(30, 55)` and end on `(10, 55)` with direction LEFT: the direction is
restored, the position is not. -/
theorem closed_trajectoryF32_counterexample :
    IsBinary32 (5242881 / 524288) ∧ IsBinary32 55 ∧
    trajectoryRoundF32^[4] ⟨⟨5242881 / 524288, 55⟩, ⟨10, 55⟩, Direction.LEFT⟩
      = ⟨⟨10, 55⟩, ⟨10, 55⟩, Direction.LEFT⟩ ∧
    (trajectoryRoundF32^[4] ⟨⟨5242881 / 524288, 55⟩, ⟨10, 55⟩, Direction.LEFT⟩).position
      ≠ (⟨⟨5242881 / 524288, 55⟩, ⟨10, 55⟩, Direction.LEFT⟩ : Object).position := by
  have f40 : fl ((20 : ℚ) * 2) = 40 := by
    rw [← MOVE_eq]
    exact fl_MOVE_mul_two
  have r1 : fl (5242881 / 524288 + 40) = 50 := by
    rw [fl_eq_pos _ (5) (13107200) (by norm_num) (by norm_num) (by norm_num)
      (roundNearestEven_tie_even _ _ (by norm_num) (by norm_num))]
    norm_num
  have r2 : fl (55 - 40) = 15 := by
    rw [fl_eq_pos _ (3) (15728640) (by norm_num) (by norm_num) (by norm_num)
      (roundNearestEven_of_lt _ _ (by norm_num) (by norm_num))]
    norm_num
  have r3 : fl (50 + 20) = 70 := by
    rw [fl_eq_pos _ (6) (9175040) (by norm_num) (by norm_num) (by norm_num)
      (roundNearestEven_of_lt _ _ (by norm_num) (by norm_num))]
    norm_num
  have r4 : fl (70 - 40) = 30 := by
    rw [fl_eq_pos _ (4) (15728640) (by norm_num) (by norm_num) (by norm_num)
      (roundNearestEven_of_lt _ _ (by norm_num) (by norm_num))]
    norm_num
  have r5 : fl (15 + 40) = 55 := by
    rw [fl_eq_pos _ (5) (14417920) (by norm_num) (by norm_num) (by norm_num)
      (roundNearestEven_of_lt _ _ (by norm_num) (by norm_num))]
    norm_num
  have r6 : fl (30 - 20) = 10 := by
    rw [fl_eq_pos _ (3) (10485760) (by norm_num) (by norm_num) (by norm_num)
      (roundNearestEven_of_lt _ _ (by norm_num) (by norm_num))]
    norm_num
  have hrun : trajectoryRoundF32^[4] ⟨⟨5242881 / 524288, 55⟩, ⟨10, 55⟩, Direction.LEFT⟩
      = ⟨⟨10, 55⟩, ⟨10, 55⟩, Direction.LEFT⟩ := by
    simp only [Function.iterate_succ, Function.iterate_zero, Function.comp_apply, id_eq,
      trajectoryRoundF32, moveOntoDestination, updateDestinationStepF32, MOVE_eq, f40,
      r1, r2, r3, r4, r5, r6]
  refine ⟨?_, ?_, hrun, ?_⟩
  · exact isBinary32_of_significand _ 3 10485762 (by norm_num)
      (by norm_num [abs_of_pos]) (by norm_num [abs_of_pos]) (by norm_num)
  · exact_mod_cast isBinary32_intCast 55 (by norm_num)
  · rw [hrun]
    simp only [ne_eq, Vector2f.mk.injEq, not_and]
    norm_num

/-- C15: no double advance.  Right after `updateDestination` every object's destination
differs from its position on the x axis, so no object counts as arrived.  A frame that
advances with a step of 0 leaves exactly the advanced list, and the frame after it, whatever
its step, only moves the objects: `updateDestination` is not applied a second time.  Whenever
the first object counts as arrived again at the end of an advancing frame, it stands on the
destination that this advance gave it, away from where it stood before. -/
theorem no_double_advance :
    (∀ o : Object,
      (updateDestinationStep o).destination.x ≠ (updateDestinationStep o).position.x ∧
      arrived (updateDestinationStep o) = false) ∧
    (∀ (objects : List Object) (o : Object), o ∈ updateDestination objects →
      o.destination.x ≠ o.position.x ∧ arrived o = false) ∧
    (∀ (first_circle : Object) (rest : List Object), arrived first_circle = true →
      frame (first_circle :: rest) 0 = updateDestination (first_circle :: rest)) ∧
    (∀ (first_circle : Object) (rest : List Object) (m : ℚ), arrived first_circle = true →
      frame (frame (first_circle :: rest) 0) m
        = (updateDestination (first_circle :: rest)).map (fun o => draw o m)) ∧
    (∀ (first_circle : Object) (rest : List Object) (m : ℚ) (r : Object) (rs : List Object),
      arrived first_circle = true → frame (first_circle :: rest) m = r :: rs →
      arrived r = true →
      r.position = (updateDestinationStep first_circle).destination ∧
      r.position.x ≠ first_circle.position.x) := by
  have hzero : ∀ (first_circle : Object) (rest : List Object), arrived first_circle = true →
      frame (first_circle :: rest) 0 = updateDestination (first_circle :: rest) := by
    intro first_circle rest ha
    simp only [frame, ha, if_true, draw_zero_step, List.map_id']
  refine ⟨updateDestinationStep_not_arrived, ?_, hzero, ?_, ?_⟩
  · intro objects o ho
    obtain ⟨o1, _, rfl⟩ := List.mem_map.mp ho
    exact updateDestinationStep_not_arrived o1
  · intro first_circle rest m ha
    rw [hzero first_circle rest ha]
    simp only [updateDestination, List.map_cons, frame,
      (updateDestinationStep_not_arrived first_circle).2, Bool.false_eq_true, if_false]
  · intro first_circle rest m r rs ha hf har
    simp only [frame, ha, if_true, updateDestination, List.map_cons, List.cons.injEq] at hf
    obtain ⟨hr, _⟩ := hf
    have hdest : r.destination = (updateDestinationStep first_circle).destination := by
      rw [← hr]; rfl
    have hpos : r.position = r.destination := by
      obtain ⟨hx, hy⟩ := (arrived_iff r).mp har
      have ex : r.position.x = r.destination.x := by linarith
      have ey : r.position.y = r.destination.y := by linarith
      cases hp : r.position
      cases hd : r.destination
      rw [hp] at ex ey
      rw [hd] at ex ey
      simp only at ex ey
      rw [ex, ey]
    refine ⟨by rw [hpos, hdest], ?_⟩
    rw [hpos, hdest, ← updateDestinationStep_position first_circle]
    exact (updateDestinationStep_not_arrived first_circle).1

theorem no_double_advance_witness :
    arrived ⟨⟨10, 15⟩, ⟨10, 15⟩, Direction.LEFT⟩ = true ∧
    frame [⟨⟨10, 15⟩, ⟨10, 15⟩, Direction.LEFT⟩, ⟨⟨50, 55⟩, ⟨50, 55⟩, Direction.RIGHT⟩] 0
      = updateDestination
          [⟨⟨10, 15⟩, ⟨10, 15⟩, Direction.LEFT⟩, ⟨⟨50, 55⟩, ⟨50, 55⟩, Direction.RIGHT⟩] :=
  have h : arrived ⟨⟨10, 15⟩, ⟨10, 15⟩, Direction.LEFT⟩ = true := by simp [arrived]
  ⟨h, no_double_advance.2.2.1 ⟨⟨10, 15⟩, ⟨10, 15⟩, Direction.LEFT⟩
    [⟨⟨50, 55⟩, ⟨50, 55⟩, Direction.RIGHT⟩] h⟩

/-- C2 (binary32 evaluation at the failing input): with the binary32 values
`current = 15435039/524288`, `destination = -10` and `maxStep = 11806965/262144 >= 0`, the
difference `destination - current` is a tie and rounds to `-646185/16384`, which is the delta
returned; the new value `current + delta` is `-5242881/524288`, below the destination, so it
lies outside the closed interval between `current` and `destination`.  These are the
x coordinate and destination of the first object of `main` after frames of 331 and 7
milliseconds and the step of a frame of 563 milliseconds, and `drawF32` puts the object
there. -/
theorem calculateMoveDistanceF32_overshoot :
    IsBinary32 (15435039 / 524288) ∧ IsBinary32 (-10) ∧ IsBinary32 (11806965 / 262144) ∧
    (0 : ℚ) ≤ 11806965 / 262144 ∧
    calculateMoveDistanceF32 (15435039 / 524288) (-10) (11806965 / 262144)
      = -646185 / 16384 ∧
    fl (15435039 / 524288 +
        calculateMoveDistanceF32 (15435039 / 524288) (-10) (11806965 / 262144))
      = -5242881 / 524288 ∧
    ¬ (min (15435039 / 524288) (-10) ≤
        fl (15435039 / 524288 +
          calculateMoveDistanceF32 (15435039 / 524288) (-10) (11806965 / 262144))) ∧
    (-5242881 / 524288 : ℚ) < -10 ∧
    (runFramesF32 [pixelMoveF32 331, pixelMoveF32 7]).head?
      = some ⟨⟨15435039 / 524288, 16315843 / 1048576⟩, ⟨-10, 55⟩, Direction.BOTTOM_LEFT⟩ ∧
    pixelMoveF32 563 = 11806965 / 262144 ∧
    (drawF32 ⟨⟨15435039 / 524288, 16315843 / 1048576⟩, ⟨-10, 55⟩, Direction.BOTTOM_LEFT⟩
        (pixelMoveF32 563)).position.x = -5242881 / 524288 := by
  have hd : fl (-10 - 15435039 / 524288) = -646185 / 16384 := by
    rw [fl_eq_neg _ 5 (-10338960) (by norm_num) (by norm_num) (by norm_num)
      (roundNearestEven_tie_even _ _ (by norm_num) (by norm_num))]
    norm_num
  have hs : fl (15435039 / 524288 - 11806965 / 262144) = -8178891 / 524288 := by
    rw [fl_eq_neg _ 3 (-16357782) (by norm_num) (by norm_num) (by norm_num)
      (roundNearestEven_of_lt _ _ (by norm_num) (by norm_num))]
    norm_num
  have hl : fl (15435039 / 524288 + -646185 / 16384) = -5242881 / 524288 := by
    rw [fl_eq_neg _ 3 (-10485762) (by norm_num) (by norm_num) (by norm_num)
      (roundNearestEven_of_lt _ _ (by norm_num) (by norm_num))]
    norm_num
  have hc : calculateMoveDistanceF32 (15435039 / 524288) (-10) (11806965 / 262144)
      = -646185 / 16384 := by
    simp only [calculateMoveDistanceF32, hd, hs]
    norm_num
  refine ⟨?_, ?_, ?_, by norm_num, hc, ?_, ?_, by norm_num, runFramesF32_head_trace.1,
    pixelMoveF32_values.2.2, ?_⟩
  · exact isBinary32_of_significand _ 4 15435039 (by norm_num)
      (by norm_num [abs_of_pos]) (by norm_num [abs_of_pos]) (by norm_num)
  · exact_mod_cast isBinary32_intCast (-10) (by norm_num)
  · exact isBinary32_of_significand _ 5 11806965 (by norm_num)
      (by norm_num [abs_of_pos]) (by norm_num [abs_of_pos]) (by norm_num)
  · rw [hc, hl]
  · rw [hc, hl]
    norm_num
  · rw [pixelMoveF32_values.2.2]
    simp only [drawF32, hc, hl]

/-- C11 (binary32 evaluation at the failing input): with the binary32 values
`position = -15435039/524288`, `destination = 10` and step `11806965/262144`, the remaining
distance is smaller than the step, the delta returned is the rounded difference
`646185/16384`, and `position + delta` is `5242881/524288`, not the destination `10`.  In the
run of `main` with frames of 331, 7 and 563 milliseconds the first object has, before the third
frame, less than the step to go on both axes, and after it the object stands on
`(-5242881/524288, 55)` with destination `(-10, 55)`: the arrival test of the frame loop
fails. -/
theorem calculateMoveDistanceF32_inexact_arrival :
    IsBinary32 (-15435039 / 524288) ∧ IsBinary32 10 ∧ IsBinary32 (11806965 / 262144) ∧
    |(10 : ℚ) - -15435039 / 524288| < 11806965 / 262144 ∧
    calculateMoveDistanceF32 (-15435039 / 524288) 10 (11806965 / 262144)
      = 646185 / 16384 ∧
    fl (-15435039 / 524288 +
        calculateMoveDistanceF32 (-15435039 / 524288) 10 (11806965 / 262144))
      = 5242881 / 524288 ∧
    fl (-15435039 / 524288 +
        calculateMoveDistanceF32 (-15435039 / 524288) 10 (11806965 / 262144)) ≠ 10 ∧
    arrived (drawF32 ⟨⟨-15435039 / 524288, 14271119 / 262144⟩, ⟨10, 15⟩, Direction.TOP_RIGHT⟩
        (11806965 / 262144)) = false ∧
    (runFramesF32 [pixelMoveF32 331, pixelMoveF32 7]).head?
      = some ⟨⟨15435039 / 524288, 16315843 / 1048576⟩, ⟨-10, 55⟩, Direction.BOTTOM_LEFT⟩ ∧
    |(-10 : ℚ) - 15435039 / 524288| < pixelMoveF32 563 ∧
    |(55 : ℚ) - 16315843 / 1048576| < pixelMoveF32 563 ∧
    (runFramesF32 [pixelMoveF32 331, pixelMoveF32 7, pixelMoveF32 563]).head?
      = some ⟨⟨-5242881 / 524288, 55⟩, ⟨-10, 55⟩, Direction.BOTTOM_LEFT⟩ ∧
    arrived ⟨⟨-5242881 / 524288, 55⟩, ⟨-10, 55⟩, Direction.BOTTOM_LEFT⟩ = false := by
  have hd : fl (10 - -15435039 / 524288) = 646185 / 16384 := by
    rw [fl_eq_pos _ 5 10338960 (by norm_num) (by norm_num) (by norm_num)
      (roundNearestEven_tie_odd _ 10338959 (by norm_num) (by norm_num))]
    norm_num
  have hs : fl (-15435039 / 524288 + 11806965 / 262144) = 8178891 / 524288 := by
    rw [fl_eq_pos _ 3 16357782 (by norm_num) (by norm_num) (by norm_num)
      (roundNearestEven_of_lt _ _ (by norm_num) (by norm_num))]
    norm_num
  have hl : fl (-15435039 / 524288 + 646185 / 16384) = 5242881 / 524288 := by
    rw [fl_eq_pos _ 3 10485762 (by norm_num) (by norm_num) (by norm_num)
      (roundNearestEven_of_lt _ _ (by norm_num) (by norm_num))]
    norm_num
  have hc : calculateMoveDistanceF32 (-15435039 / 524288) 10 (11806965 / 262144)
      = 646185 / 16384 := by
    simp only [calculateMoveDistanceF32, hd, hs]
    norm_num
  refine ⟨?_, ?_, ?_, ?_, hc, ?_, ?_, ?_, runFramesF32_head_trace.1, ?_, ?_,
    runFramesF32_head_trace.2, ?_⟩
  · exact isBinary32_of_significand _ 4 (-15435039) (by norm_num)
      (by norm_num [abs_of_neg]) (by norm_num [abs_of_neg]) (by norm_num)
  · exact_mod_cast isBinary32_intCast 10 (by norm_num)
  · exact isBinary32_of_significand _ 5 11806965 (by norm_num)
      (by norm_num [abs_of_pos]) (by norm_num [abs_of_pos]) (by norm_num)
  · rw [abs_of_pos (by norm_num)]
    norm_num
  · rw [hc, hl]
  · rw [hc, hl]
    norm_num
  · simp only [arrived, drawF32, hc, hl]
    norm_num
  · rw [pixelMoveF32_values.2.2, abs_of_neg (by norm_num)]
    norm_num
  · rw [pixelMoveF32_values.2.2, abs_of_pos (by norm_num)]
    norm_num
  · simp only [arrived]
    norm_num

/-- C7 (as documented, refuted), in binary32.  At `(5, 10, 20)` the sum is greater than the
destination and the result is the remaining distance `5`, not the destination `10`.  At
`(5, 0, 10)`, moving left, the result is `-5`, not the destination `0`.  At `(5, 0, 3)` the
result is `-3`, neither the destination `0` nor the remaining distance `-5`.  At `(5, 5, 3)`
the result is `0`, not the destination `5`.  At `(0, -5, -10)` the sum is not greater than the
destination, and the result is `10`, not the given `-10`.  At `(1, 1, 2^-30)`, a step `>= 0`,
the computed sum is `1`, not greater than the destination, and the result is `0`, neither the
given step nor the destination. -/
theorem calculateMoveDistanceF32_doc_counterexample :
    (fl (5 + 20) > 10 ∧ calculateMoveDistanceF32 5 10 20 = 5 ∧
      calculateMoveDistanceF32 5 10 20 ≠ 10) ∧
    (fl (5 + 10) > 0 ∧ calculateMoveDistanceF32 5 0 10 = -5 ∧
      calculateMoveDistanceF32 5 0 10 ≠ 0) ∧
    (fl (5 + 3) > 0 ∧ calculateMoveDistanceF32 5 0 3 = -3 ∧
      calculateMoveDistanceF32 5 0 3 ≠ 0 ∧ calculateMoveDistanceF32 5 0 3 ≠ 0 - 5) ∧
    (fl (5 + 3) > 5 ∧ calculateMoveDistanceF32 5 5 3 = 0 ∧
      calculateMoveDistanceF32 5 5 3 ≠ 5) ∧
    (¬ (fl (0 + -10) > -5) ∧ calculateMoveDistanceF32 0 (-5) (-10) = 10 ∧
      calculateMoveDistanceF32 0 (-5) (-10) ≠ -10) ∧
    ((0 : ℚ) ≤ 1 / 1073741824 ∧ IsBinary32 (1 / 1073741824) ∧
      ¬ (fl (1 + 1 / 1073741824) > 1) ∧
      calculateMoveDistanceF32 1 1 (1 / 1073741824) = 0 ∧
      calculateMoveDistanceF32 1 1 (1 / 1073741824) ≠ 1 / 1073741824 ∧
      calculateMoveDistanceF32 1 1 (1 / 1073741824) ≠ 1) := by
  have s1 : fl (5 + 20) = 25 := by
    rw [fl_eq_pos _ (4) (13107200) (by norm_num) (by norm_num) (by norm_num)
      (roundNearestEven_of_lt _ _ (by norm_num) (by norm_num))]
    norm_num
  have s2 : fl (5 + 10) = 15 := by
    rw [fl_eq_pos _ (3) (15728640) (by norm_num) (by norm_num) (by norm_num)
      (roundNearestEven_of_lt _ _ (by norm_num) (by norm_num))]
    norm_num
  have s3 : fl (5 + 3) = 8 := by
    rw [fl_eq_pos _ (3) (8388608) (by norm_num) (by norm_num) (by norm_num)
      (roundNearestEven_of_lt _ _ (by norm_num) (by norm_num))]
    norm_num
  have s4 : fl (0 + -10) = -10 := by
    rw [fl_eq_neg _ (3) (-10485760) (by norm_num) (by norm_num) (by norm_num)
      (roundNearestEven_of_lt _ _ (by norm_num) (by norm_num))]
    norm_num
  have s5 : fl (1 + 1 / 1073741824) = 1 := by
    rw [fl_eq_pos _ (0) (8388608) (by norm_num) (by norm_num) (by norm_num)
      (roundNearestEven_of_lt _ _ (by norm_num) (by norm_num))]
    norm_num
  have c1 : calculateMoveDistanceF32 5 10 20 = 5 := by
    have h := calculateMoveDistanceF32_intCast 5 10 20 (by decide) (by decide) (by decide)
    push_cast at h
    rw [h]
    simp only [calculateMoveDistance]
    norm_num
  have c2 : calculateMoveDistanceF32 5 0 10 = -5 := by
    have h := calculateMoveDistanceF32_intCast 5 0 10 (by decide) (by decide) (by decide)
    push_cast at h
    rw [h]
    simp only [calculateMoveDistance]
    norm_num
  have c3 : calculateMoveDistanceF32 5 0 3 = -3 := by
    have h := calculateMoveDistanceF32_intCast 5 0 3 (by decide) (by decide) (by decide)
    push_cast at h
    rw [h]
    simp only [calculateMoveDistance]
    norm_num
  have c4 : calculateMoveDistanceF32 5 5 3 = 0 := by
    have h := calculateMoveDistanceF32_intCast 5 5 3 (by decide) (by decide) (by decide)
    push_cast at h
    rw [h]
    simp only [calculateMoveDistance]
    norm_num
  have c5 : calculateMoveDistanceF32 0 (-5) (-10) = 10 := by
    have h := calculateMoveDistanceF32_intCast 0 (-5) (-10) (by decide) (by decide) (by decide)
    push_cast at h
    rw [h]
    simp only [calculateMoveDistance]
    norm_num
  have c6 : calculateMoveDistanceF32 1 1 (1 / 1073741824) = 0 := by
    simp only [calculateMoveDistanceF32, sub_self, fl_zero, lt_irrefl, if_false]
  refine ⟨⟨?_, c1, ?_⟩, ⟨?_, c2, ?_⟩, ⟨?_, c3, ?_, ?_⟩, ⟨?_, c4, ?_⟩, ⟨?_, c5, ?_⟩,
    ⟨by norm_num, ?_, ?_, c6, ?_, ?_⟩⟩
  · rw [s1]; norm_num
  · rw [c1]; norm_num
  · rw [s2]; norm_num
  · rw [c2]; norm_num
  · rw [s3]; norm_num
  · rw [c3]; norm_num
  · rw [c3]; norm_num
  · rw [s3]; norm_num
  · rw [c4]; norm_num
  · rw [s4]; norm_num
  · rw [c5]; norm_num
  · exact isBinary32_of_significand _ (-30) 8388608 (by norm_num)
      (by norm_num [abs_of_pos]) (by norm_num [abs_of_pos]) (by norm_num)
  · rw [s5]; norm_num
  · rw [c6]; norm_num
  · rw [c6]; norm_num

/-- C7 (amended), in binary32: for binary32 values `current_position` and `destination` and
every `move_distance`, with the result of each `float` operation rounded.  When `destination`
is greater than `current_position`, the function returns the given `move_distance` if the
computed `current_position + move_distance` is not greater than `destination`, and the
computed difference `destination - current_position` otherwise.  When `destination` is less
than `current_position`, it returns the computed difference if the computed
`current_position - move_distance` is less than `destination`, and `-move_distance`
otherwise.  When they are equal it returns `0`. -/
theorem calculateMoveDistanceF32_doc_amended (current_position destination move_distance : ℚ)
    (hcur : IsBinary32 current_position) (hdest : IsBinary32 destination) :
    (current_position < destination →
      ¬ (fl (current_position + move_distance) > destination) →
      calculateMoveDistanceF32 current_position destination move_distance = move_distance) ∧
    (current_position < destination →
      fl (current_position + move_distance) > destination →
      calculateMoveDistanceF32 current_position destination move_distance
        = fl (destination - current_position)) ∧
    (destination < current_position →
      fl (current_position - move_distance) < destination →
      calculateMoveDistanceF32 current_position destination move_distance
        = fl (destination - current_position)) ∧
    (destination < current_position →
      ¬ (fl (current_position - move_distance) < destination) →
      calculateMoveDistanceF32 current_position destination move_distance
        = -move_distance) ∧
    (destination = current_position →
      calculateMoveDistanceF32 current_position destination move_distance = 0) := by
  obtain ⟨hpos, hneg⟩ := fl_sub_sign current_position destination hcur hdest
  refine ⟨?_, ?_, ?_, ?_, ?_⟩
  · intro h h2
    simp only [calculateMoveDistanceF32, if_neg (not_lt.mpr (le_of_lt (hpos h))),
      if_pos (hpos h), if_neg h2]
  · intro h h2
    simp only [calculateMoveDistanceF32, if_neg (not_lt.mpr (le_of_lt (hpos h))),
      if_pos (hpos h), if_pos h2]
  · intro h h2
    simp only [calculateMoveDistanceF32, if_pos (hneg h), if_pos h2]
  · intro h h2
    simp only [calculateMoveDistanceF32, if_pos (hneg h), if_neg h2]
  · intro h
    simp only [calculateMoveDistanceF32, h, sub_self, fl_zero, lt_irrefl, if_false]

theorem calculateMoveDistanceF32_doc_amended_witness :
    IsBinary32 5 ∧ IsBinary32 0 ∧ (0 : ℚ) < 5 ∧ ¬ (fl (5 - 3) < 0) ∧
    calculateMoveDistanceF32 5 0 3 = -3 :=
  have h5 : IsBinary32 5 := by exact_mod_cast isBinary32_intCast 5 (by norm_num)
  have h0 : IsBinary32 0 := fl_zero
  have hw : fl (5 - 3) = 2 := by
    rw [fl_eq_pos _ (1) (8388608) (by norm_num) (by norm_num) (by norm_num)
      (roundNearestEven_of_lt _ _ (by norm_num) (by norm_num))]
    norm_num
  have hn : ¬ (fl (5 - 3) < 0) := by rw [hw]; norm_num
  ⟨h5, h0, by norm_num, hn,
   (calculateMoveDistanceF32_doc_amended 5 0 3 h5 h0).2.2.2.1 (by norm_num) hn⟩

end Geomart
